import Mathlib

/-!
Verification of the consul-sync reconciliation engine.

This file gives a shallow embedding of the core of the repository
alexieff-io/consul-sync: the Consul data model (`internal/consul/types.go`),
the Kubernetes state syncer (`internal/kubernetes/syncer.go`, current
revision with HTTPRoute support), and the backoff loop of the Consul
watcher (`internal/consul/watcher.go`, `WatchServices`).  The orchestrator
(Kubernetes API) is modelled as an explicit state of keyed object stores;
server-side apply is a keyed upsert and delete removes by name.  Failures
of individual API calls are injected through an `Api` record of boolean
oracles, with `Api.ok` the failure-free behaviour.
-/

set_option maxHeartbeats 1000000

namespace ConsulSync

/-! ## Name sanitization (`sanitizeName`, syncer.go) -/

/-- One character of Go `strings.ToLower`.  ASCII uppercase maps to ASCII
lowercase.  Of the non-ASCII code points, only U+212A (KELVIN SIGN) and
U+0130 (LATIN CAPITAL LETTER I WITH DOT ABOVE) lower-case into the ASCII
range accepted by the subsequent `[^a-z0-9-]` replacement; every other
non-ASCII code point stays outside that range and is replaced by `-` in
the next step either way, so mapping it to itself is observationally
faithful. -/
def goToLower (c : Char) : Char :=
  if 'A' ≤ c ∧ c ≤ 'Z' then Char.ofNat (c.toNat + 32)
  else if c.toNat = 0x212A then 'k'
  else if c.toNat = 0x130 then 'i'
  else c

/-- The complement of the regexp `[^a-z0-9-]` in syncer.go: characters the
sanitizer keeps. -/
def isKubeChar (c : Char) : Bool :=
  ('a' ≤ c && c ≤ 'z') || ('0' ≤ c && c ≤ '9') || c == '-'

/-- Go `strings.Trim(name, "-")`: drop hyphens from both ends. -/
def trimHyphens (l : List Char) : List Char :=
  ((l.dropWhile (fun c => c == '-')).reverse.dropWhile (fun c => c == '-')).reverse

/-- `sanitizeName` from syncer.go, on the character list.  Lower-case,
replace `_` by `-`, replace every character outside `[a-z0-9-]` by `-`,
trim hyphens from both ends, then truncate to 63 bytes.  After the
replacement step every character is ASCII, so the byte slice `name[:63]`
of the Go source coincides with taking 63 characters. -/
def sanitizeChars (l : List Char) : List Char :=
  let lowered := l.map goToLower
  let underscored := lowered.map (fun c => if c == '_' then '-' else c)
  let replaced := underscored.map (fun c => if isKubeChar c then c else '-')
  let trimmed := trimHyphens replaced
  trimmed.take 63

/-- `sanitizeName` from syncer.go. -/
def sanitizeName (s : String) : String := String.mk (sanitizeChars s.data)

/-! ## Watcher backoff (`WatchServices`, watcher.go) -/

/-- The backoff update after a failed `ListServices` call:
`backoff = min(backoff*2, 30*time.Second)`, in whole seconds. -/
def backoffStep (b : Nat) : Nat := min (b * 2) 30

/-- One iteration of the watch loop, restricted to its backoff behaviour.
`failed = true` means `ListServices` returned an error: the loop sleeps
for the current backoff (the emitted wait) and then doubles it with the
30s cap.  On success the backoff resets to one second and nothing is
emitted. -/
def watchStep (b : Nat) (failed : Bool) : Nat × List Nat :=
  if failed then (backoffStep b, [b]) else (1, [])

/-- The sequence of waits the watch loop performs over a run of poll
outcomes (`true` = failure), starting from backoff `b`. -/
def watchWaits (outcomes : List Bool) (b : Nat) : List Nat :=
  match outcomes with
  | [] => []
  | o :: rest => (watchStep b o).2 ++ watchWaits rest (watchStep b o).1

/-- The backoff value held after processing a run of poll outcomes. -/
def backoffAfter (outcomes : List Bool) (b : Nat) : Nat :=
  outcomes.foldl (fun acc o => (watchStep acc o).1) b

/-! ## Consul data model (`types.go`, current revision) -/

/-- `consul.ServiceInstance`. -/
structure ServiceInstance where
  serviceName : String
  address : String
  port : Int
  tags : List String
deriving DecidableEq

/-- `consul.ServiceState`.  The current revision carries the service-level
tag list consumed by `Sync` via `svc.Tags` for HTTPRoute generation. -/
structure ServiceState where
  name : String
  instances : List ServiceInstance
  tags : List String
deriving DecidableEq

/-! ## Kubernetes object model -/

/-- A `v1.Service` as far as the syncer shapes it: its name, whether it
carries the `app.kubernetes.io/managed-by: consul-sync` label, and the
single `http` port. -/
structure KService where
  name : String
  managed : Bool
  port : Int
deriving DecidableEq

/-- A `discovery.k8s.io/v1.EndpointSlice` as shaped by the syncer. -/
structure KEndpointSlice where
  name : String
  managed : Bool
  serviceName : String
  port : Int
  addresses : List String
deriving DecidableEq

/-- A `gateway.networking.k8s.io/v1.HTTPRoute` as shaped by the syncer. -/
structure KRoute where
  name : String
  managed : Bool
  serviceName : String
  gateway : String
  hostname : String
  port : Int
deriving DecidableEq

/-- The orchestrator state: one keyed store per object kind, all in the
target namespace. -/
structure World where
  services : List KService
  slices : List KEndpointSlice
  routes : List KRoute
deriving DecidableEq

/-- `HTTPRouteConfig` from syncer.go. -/
structure HTTPRouteConfig where
  enabled : Bool
  domainSuffix : String
  internalGateway : String
  externalGateway : String
  gatewayNamespace : String
  gatewayListener : String
  internalTag : String
  externalTag : String
deriving DecidableEq

/-! ## Keyed stores: server-side apply as upsert -/

/-- Replace every object whose key is `k` by `x`. -/
def upd {α : Type} (kf : α → String) (k : String) (x : α) (l : List α) : List α :=
  l.map (fun y => if kf y == k then x else y)

/-- Keyed upsert: Kubernetes server-side apply of `x` under key `kf x`.
If an object with that name exists it is overwritten in place, otherwise
the object is created. -/
def ups {α : Type} (kf : α → String) (x : α) (l : List α) : List α :=
  if l.any (fun y => kf y == kf x) then upd kf (kf x) x l else l ++ [x]

/-- Replaying a list of keyed writes over a store. -/
def replay {α : Type} (kf : α → String) (l : List α) (ws : List α) : List α :=
  ws.foldl (fun acc w => ups kf w acc) l

/-- Does the store hold an object with key `k`? -/
def hasKey {α : Type} (kf : α → String) (l : List α) (k : String) : Bool :=
  l.any (fun y => kf y == k)

/-- The last write in `ws` whose key is `k`, if any. -/
def valLast {α : Type} (kf : α → String) (ws : List α) (k : String) : Option α :=
  (ws.filter (fun y => kf y == k)).getLast?

/-! ## The syncer (`Sync`, syncer.go) -/

/-- Go `int32(x)` applied to an `int`: two's-complement truncation to 32
bits, used by `Sync` on `svc.Instances[0].Port` before range validation. -/
def toInt32 (n : Int) : Int := (n + 2 ^ 31) % 2 ^ 32 - 2 ^ 31

/-- `hasTag` from syncer.go. -/
def hasTag (tags : List String) (target : String) : Bool :=
  tags.any (fun t => t == target)

/-- `map[string]bool` insertion (`m[k] = true`), kept as a duplicate-free
list so that `len(m)` is the list length. -/
def insertName (l : List String) (n : String) : List String :=
  if l.contains n then l else l ++ [n]

/-- The API calls `Sync` makes to create or update objects (server-side
apply `Patch`es), with the data each call carries. -/
inductive ApplyCall where
  | service (name : String) (port : Int)
  | slice (name : String) (port : Int) (addresses : List String)
  | route (name : String) (serviceName : String) (gateway : String)
      (hostname : String) (port : Int)
deriving DecidableEq

/-- The delete calls `cleanup` and `cleanupHTTPRoutes` issue. -/
inductive DeleteCall where
  | service (name : String)
  | slice (name : String)
  | route (name : String)
deriving DecidableEq

/-- The errors `Sync` accumulates into `syncErrors` (joined by
`errors.Join` at the end; the joined error is nil iff the list is
empty). -/
inductive SyncError where
  | applyService (name : String)
  | applySlice (name : String)
  | applyRoute (routeName : String)
  | cleanupOrphans
  | cleanupRoutes
deriving DecidableEq

/-- Failure injection for the Kubernetes API: which calls return an
error.  `Api.ok` is the failure-free API. -/
structure Api where
  applyServiceFails : String → Bool
  applySliceFails : String → Bool
  applyRouteFails : String → Bool
  listServicesFails : Bool
  listRoutesFails : Bool
  deleteServiceFails : String → Bool
  deleteSliceFails : String → Bool
  deleteRouteFails : String → Bool

/-- The failure-free Kubernetes API. -/
def Api.ok : Api :=
  ⟨fun _ => false, fun _ => false, fun _ => false, false, false,
   fun _ => false, fun _ => false, fun _ => false⟩

/-- `applyService` from syncer.go: server-side apply of the headless
Service carrying the managed-by marker. -/
def applyServiceW (w : World) (name : String) (port : Int) : World :=
  { w with services := ups KService.name ⟨name, true, port⟩ w.services }

/-- `applyEndpointSlice` from syncer.go: apply of the `<name>-consul`
EndpointSlice, one endpoint per instance address. -/
def applySliceW (w : World) (name : String) (port : Int)
    (instances : List ServiceInstance) : World :=
  let obj : KEndpointSlice :=
    ⟨name ++ "-consul", true, name, port, instances.map (fun i => i.address)⟩
  { w with slices := ups KEndpointSlice.name obj w.slices }

/-- `applyHTTPRoute` from syncer.go: apply of the `<service>-<gateway>`
HTTPRoute with hostname `<service>.<domain-suffix>`. -/
def applyRouteW (w : World) (cfg : HTTPRouteConfig) (serviceName : String)
    (port : Int) (gateway : String) : World :=
  let obj : KRoute :=
    ⟨serviceName ++ "-" ++ gateway, true, serviceName, gateway,
     serviceName ++ "." ++ cfg.domainSuffix, port⟩
  { w with routes := ups KRoute.name obj w.routes }

/-- Deleting a Service by name. -/
def removeServiceW (w : World) (n : String) : World :=
  { w with services := w.services.filter (fun s => !(s.name == n)) }

/-- Deleting an EndpointSlice by name. -/
def removeSliceW (w : World) (n : String) : World :=
  { w with slices := w.slices.filter (fun s => !(s.name == n)) }

/-- Deleting an HTTPRoute by name. -/
def removeRouteW (w : World) (n : String) : World :=
  { w with routes := w.routes.filter (fun r => !(r.name == n)) }

/-- The state threaded through `Sync`'s per-service loop: the
orchestrator state plus the loop's local variables `desired`,
`desiredRoutes`, `totalEndpoints`, `routeCount`, `syncErrors`, and the
record of apply calls made so far. -/
structure LoopState where
  world : World
  applies : List ApplyCall
  errs : List SyncError
  desired : List String
  desiredRoutes : List String
  totalEndpoints : Nat
  routeCount : Nat
deriving DecidableEq

/-- The body of `Sync`'s `for _, svc := range services` loop, transcribed
from syncer.go: insert the sanitized name into `desired`; skip services
with no instances; convert the first instance's port to `int32` and skip
on invalid range; count endpoints; apply the Service, the EndpointSlice,
and (if enabled and tagged) the HTTPRoutes, accumulating per-resource
failures and `continue`-ing past them. -/
def processService (api : Api) (cfg : HTTPRouteConfig) (st : LoopState)
    (svc : ServiceState) : LoopState :=
  let name := sanitizeName svc.name
  let desired := insertName st.desired name
  match svc.instances with
  | [] => { st with desired := desired }
  | inst :: _ =>
    let port := toInt32 inst.port
    if port < 1 || port > 65535 then
      { st with desired := desired }
    else
      let totalEndpoints := st.totalEndpoints + svc.instances.length
      if api.applyServiceFails name then
        { st with desired := desired, totalEndpoints := totalEndpoints,
                  errs := st.errs ++ [SyncError.applyService name] }
      else
        let world1 := applyServiceW st.world name port
        let applies1 := st.applies ++ [ApplyCall.service name port]
        if api.applySliceFails name then
          { st with world := world1, applies := applies1, desired := desired,
                    totalEndpoints := totalEndpoints,
                    errs := st.errs ++ [SyncError.applySlice name] }
        else
          let world2 := applySliceW world1 name port svc.instances
          let applies2 := applies1 ++
            [ApplyCall.slice (name ++ "-consul") port
              (svc.instances.map (fun i => i.address))]
          if cfg.enabled then
            let rnI := name ++ "-" ++ cfg.internalGateway
            let afterI :=
              if hasTag svc.tags cfg.internalTag then
                let droutes := insertName st.desiredRoutes rnI
                if api.applyRouteFails rnI then
                  (world2, applies2, st.errs ++ [SyncError.applyRoute rnI],
                   droutes, st.routeCount)
                else
                  (applyRouteW world2 cfg name port cfg.internalGateway,
                   applies2 ++ [ApplyCall.route rnI name cfg.internalGateway
                     (name ++ "." ++ cfg.domainSuffix) port],
                   st.errs, droutes, st.routeCount + 1)
              else
                (world2, applies2, st.errs, st.desiredRoutes, st.routeCount)
            let rnE := name ++ "-" ++ cfg.externalGateway
            let afterE :=
              if hasTag svc.tags cfg.externalTag then
                let droutes := insertName afterI.2.2.2.1 rnE
                if api.applyRouteFails rnE then
                  (afterI.1, afterI.2.1, afterI.2.2.1 ++ [SyncError.applyRoute rnE],
                   droutes, afterI.2.2.2.2)
                else
                  (applyRouteW afterI.1 cfg name port cfg.externalGateway,
                   afterI.2.1 ++ [ApplyCall.route rnE name cfg.externalGateway
                     (name ++ "." ++ cfg.domainSuffix) port],
                   afterI.2.2.1, droutes, afterI.2.2.2.2 + 1)
              else afterI
            { world := afterE.1, applies := afterE.2.1, errs := afterE.2.2.1,
              desired := desired, desiredRoutes := afterE.2.2.2.1,
              totalEndpoints := totalEndpoints, routeCount := afterE.2.2.2.2 }
          else
            { st with world := world2, applies := applies2, desired := desired,
                      totalEndpoints := totalEndpoints }

/-- The loop of `cleanup` in syncer.go over the listed managed Services
that are not in `desired`: delete the `<name>-consul` EndpointSlice
(failures only logged), then delete the Service; a Service delete failure
aborts the loop and surfaces as `cleanup`'s error. -/
def cleanupGo (api : Api) : List KService → World → List DeleteCall →
    World × List DeleteCall × Bool
  | [], w, dels => (w, dels, false)
  | o :: rest, w, dels =>
    let sliceName := o.name ++ "-consul"
    let w1 := if api.deleteSliceFails sliceName then w else removeSliceW w sliceName
    let dels1 := dels ++ [DeleteCall.slice sliceName, DeleteCall.service o.name]
    if api.deleteServiceFails o.name then (w1, dels1, true)
    else cleanupGo api rest (removeServiceW w1 o.name) dels1

/-- `cleanup` from syncer.go: list Services with the managed-by label
selector, then tear down those absent from `desired`. -/
def cleanup (api : Api) (w : World) (desired : List String) :
    World × List DeleteCall × Bool :=
  if api.listServicesFails then (w, [], true)
  else
    cleanupGo api
      (w.services.filter (fun s => s.managed && !(desired.contains s.name)))
      w []

/-- The loop of `cleanupHTTPRoutes` over listed managed HTTPRoutes not in
`desiredRoutes`; delete failures are only logged. -/
def cleanupRoutesGo (api : Api) : List KRoute → World → List DeleteCall →
    World × List DeleteCall
  | [], w, dels => (w, dels)
  | o :: rest, w, dels =>
    let w1 := if api.deleteRouteFails o.name then w else removeRouteW w o.name
    cleanupRoutesGo api rest w1 (dels ++ [DeleteCall.route o.name])

/-- `cleanupHTTPRoutes` from syncer.go. -/
def cleanupRoutes (api : Api) (w : World) (desiredRoutes : List String) :
    World × List DeleteCall × Bool :=
  if api.listRoutesFails then (w, [], true)
  else
    let r := cleanupRoutesGo api
      (w.routes.filter (fun rt => rt.managed && !(desiredRoutes.contains rt.name)))
      w []
    (r.1, r.2, false)

/-- The result of one `Sync` invocation: the final orchestrator state,
the apply and delete calls made, the accumulated error list (the joined
return value is nil iff it is empty), the two desired sets, and the
gauge values set at the end (`SyncedHTTPRoutes` is only set when route
generation is enabled). -/
structure SyncResult where
  world : World
  applies : List ApplyCall
  deletes : List DeleteCall
  errs : List SyncError
  desired : List String
  desiredRoutes : List String
  syncedServicesGauge : Nat
  syncedEndpointsGauge : Nat
  syncedRoutesGauge : Option Nat
deriving DecidableEq

/-- `Sync` from syncer.go: the per-service loop, orphan cleanup, optional
HTTPRoute cleanup, gauge updates, and the joined error. -/
def runSync (api : Api) (cfg : HTTPRouteConfig) (states : List ServiceState)
    (w : World) : SyncResult :=
  let st := states.foldl (processService api cfg) ⟨w, [], [], [], [], 0, 0⟩
  let c := cleanup api st.world st.desired
  let errs1 := st.errs ++ (if c.2.2 then [SyncError.cleanupOrphans] else [])
  if cfg.enabled then
    let cr := cleanupRoutes api c.1 st.desiredRoutes
    { world := cr.1, applies := st.applies, deletes := c.2.1 ++ cr.2.1,
      errs := errs1 ++ (if cr.2.2 then [SyncError.cleanupRoutes] else []),
      desired := st.desired, desiredRoutes := st.desiredRoutes,
      syncedServicesGauge := st.desired.length,
      syncedEndpointsGauge := st.totalEndpoints,
      syncedRoutesGauge := some st.routeCount }
  else
    { world := c.1, applies := st.applies, deletes := c.2.1, errs := errs1,
      desired := st.desired, desiredRoutes := st.desiredRoutes,
      syncedServicesGauge := st.desired.length,
      syncedEndpointsGauge := st.totalEndpoints,
      syncedRoutesGauge := none }

/-! ## Lemmas about keyed stores -/

section KeyedStore

variable {α : Type} (kf : α → String)

theorem replay_nil (l : List α) : replay kf l [] = l := rfl

theorem replay_cons (l : List α) (x : α) (ws : List α) :
    replay kf l (x :: ws) = replay kf (ups kf x l) ws := rfl

theorem replay_append (l : List α) (ws vs : List α) :
    replay kf l (ws ++ vs) = replay kf (replay kf l ws) vs := by
  simp [replay, List.foldl_append]

theorem mem_ups {x : α} {l : List α} {y : α} (h : y ∈ ups kf x l) :
    y ∈ l ∨ y = x := by
  unfold ups upd at h
  split at h
  · rcases List.mem_map.mp h with ⟨z, hz, hzy⟩
    by_cases hk : (kf z == kf x) = true
    · right
      rw [if_pos hk] at hzy
      exact hzy.symm
    · left
      rw [if_neg hk] at hzy
      exact hzy ▸ hz
  · rcases List.mem_append.mp h with h1 | h1
    · exact Or.inl h1
    · exact Or.inr (List.mem_singleton.mp h1)

theorem mem_replay {l ws : List α} {y : α} (h : y ∈ replay kf l ws) :
    y ∈ l ∨ y ∈ ws := by
  induction ws generalizing l with
  | nil => exact Or.inl h
  | cons x ws ih =>
    rw [replay_cons] at h
    rcases ih h with h1 | h1
    · rcases mem_ups kf h1 with h2 | h2
      · exact Or.inl h2
      · exact Or.inr (h2 ▸ List.mem_cons_self x ws)
    · exact Or.inr (List.mem_cons_of_mem x h1)

theorem hasKey_ups_self (x : α) (l : List α) :
    hasKey kf (ups kf x l) (kf x) = true := by
  unfold ups upd hasKey
  split
  · rename_i h
    obtain ⟨z, hz, hzk⟩ := List.any_eq_true.mp h
    refine List.any_eq_true.mpr ⟨x, List.mem_map.mpr ⟨z, hz, ?_⟩, by simp⟩
    rw [if_pos hzk]
  · simp

theorem hasKey_ups_of {l : List α} {k : String} (x : α)
    (h : hasKey kf l k = true) : hasKey kf (ups kf x l) k = true := by
  unfold ups upd hasKey at *
  obtain ⟨z, hz, hzk⟩ := List.any_eq_true.mp h
  split
  · refine List.any_eq_true.mpr ⟨if kf z == kf x then x else z,
      List.mem_map.mpr ⟨z, hz, rfl⟩, ?_⟩
    by_cases hc : (kf z == kf x) = true
    · rw [if_pos hc]
      have h1 : kf z = kf x := beq_iff_eq.mp hc
      rw [← h1]
      exact hzk
    · rw [if_neg hc]
      exact hzk
  · exact List.any_eq_true.mpr ⟨z, List.mem_append.mpr (Or.inl hz), hzk⟩

theorem hasKey_replay_of {l ws : List α} {k : String}
    (h : hasKey kf l k = true) : hasKey kf (replay kf l ws) k = true := by
  induction ws generalizing l with
  | nil => exact h
  | cons x ws ih => exact ih (hasKey_ups_of kf x h)

theorem hasKey_replay_of_mem {ws : List α} {x : α} (hx : x ∈ ws)
    (l : List α) : hasKey kf (replay kf l ws) (kf x) = true := by
  induction ws generalizing l with
  | nil => cases hx
  | cons y ws ih =>
    rw [replay_cons]
    rcases List.mem_cons.mp hx with h1 | h1
    · subst h1
      exact hasKey_replay_of kf (hasKey_ups_self kf x l)
    · exact ih h1 (ups kf y l)

theorem upd_of_not_hasKey {l : List α} {k : String} (x : α)
    (h : hasKey kf l k = false) : upd kf k x l = l := by
  unfold hasKey at h
  unfold upd
  have h1 : ∀ y ∈ l, (kf y == k) = false := by
    intro y hy
    by_contra hc
    rw [List.any_eq_false] at h
    exact h y hy (by revert hc; cases kf y == k <;> simp)
  calc l.map (fun y => if kf y == k then x else y)
      = l.map id := List.map_congr_left (fun y hy => by rw [h1 y hy]; rfl)
    _ = l := List.map_id l

theorem upd_id_of_eq {l : List α} {k : String} {x : α}
    (h : ∀ y ∈ l, kf y = k → y = x) : upd kf k x l = l := by
  unfold upd
  calc l.map (fun y => if kf y == k then x else y)
      = l.map id := by
        refine List.map_congr_left (fun y hy => ?_)
        by_cases hc : (kf y == k) = true
        · rw [if_pos hc, (h y hy (beq_iff_eq.mp hc))]; rfl
        · rw [if_neg hc]; rfl
    _ = l := List.map_id l

theorem upd_upd_same {k : String} {x₁ : α} (x₂ : α) (l : List α)
    (h₁ : kf x₁ = k) :
    upd kf k x₂ (upd kf k x₁ l) = upd kf k x₂ l := by
  unfold upd
  rw [List.map_map]
  refine List.map_congr_left (fun y _ => ?_)
  by_cases hc : kf y = k
  · simp [hc, h₁]
  · simp [hc]

theorem upd_upd_comm {k j : String} {x z : α} (l : List α)
    (hx : kf x = k) (hz : kf z = j) (hkj : k ≠ j) :
    upd kf j z (upd kf k x l) = upd kf k x (upd kf j z l) := by
  unfold upd
  rw [List.map_map, List.map_map]
  refine List.map_congr_left (fun y _ => ?_)
  simp only [Function.comp_apply]
  by_cases hck : kf y = k
  · have hcj : kf y ≠ j := fun hh => hkj (hck ▸ hh)
    simp [hck, hcj, hx, hkj]
  · by_cases hcj : kf y = j
    · have hzk : kf z ≠ k := fun hh => hkj ((hz ▸ hh).symm)
      simp [hck, hcj, hz, hzk, Ne.symm hkj]
    · simp [hck, hcj]

theorem hasKey_upd {l : List α} {k : String} (j : String) (x : α)
    (hx : kf x = k) : hasKey kf (upd kf k x l) j = hasKey kf l j := by
  unfold hasKey upd
  rw [List.any_map]
  congr 1
  funext y
  simp only [Function.comp_apply]
  by_cases hc : kf y = k
  · simp [hc, hx]
  · simp [hc]

theorem ups_upd_absorb_eq {k : String} {x y : α} (l : List α)
    (hx : kf x = k) (hy : kf y = k) :
    ups kf y (upd kf k x l) = ups kf y l := by
  unfold ups
  rw [show (upd kf k x l).any (fun z => kf z == kf y) = l.any (fun z => kf z == kf y) from
    hasKey_upd kf (kf y) x hx]
  by_cases hp : (l.any (fun z => kf z == kf y)) = true
  · rw [if_pos hp, if_pos hp, hy, upd_upd_same kf y l hx]
  · rw [if_neg hp, if_neg hp]
    have h0 : hasKey kf l k = false := by
      unfold hasKey
      rw [← hy]
      exact Bool.not_eq_true _ ▸ (Bool.eq_false_iff.mpr hp)
    rw [upd_of_not_hasKey kf x h0]

theorem ups_upd_comm {k : String} {x y : α} (l : List α)
    (hx : kf x = k) (hy : kf y ≠ k) :
    ups kf y (upd kf k x l) = upd kf k x (ups kf y l) := by
  unfold ups
  rw [show (upd kf k x l).any (fun z => kf z == kf y) = l.any (fun z => kf z == kf y) from
    hasKey_upd kf (kf y) x hx]
  by_cases hp : (l.any (fun z => kf z == kf y)) = true
  · rw [if_pos hp, if_pos hp]
    exact upd_upd_comm kf l hx rfl (fun hh => hy hh.symm)
  · rw [if_neg hp, if_neg hp]
    unfold upd
    rw [List.map_append]
    congr 1
    simp [hy]

theorem replay_upd_absorb {k : String} {x : α} (hx : kf x = k) :
    ∀ (ws : List α), (∃ w ∈ ws, kf w = k) → ∀ (l : List α),
      replay kf (upd kf k x l) ws = replay kf l ws := by
  intro ws
  induction ws with
  | nil => intro h; exact absurd h (by simp)
  | cons y ws ih =>
    intro h l
    rw [replay_cons, replay_cons]
    by_cases hy : kf y = k
    · rw [ups_upd_absorb_eq kf l hx hy]
    · have h1 : ∃ w ∈ ws, kf w = k := by
        rcases h with ⟨w, hw, hwk⟩
        rcases List.mem_cons.mp hw with h2 | h2
        · exact absurd (h2 ▸ hwk) hy
        · exact ⟨w, h2, hwk⟩
      rw [ups_upd_comm kf l hx hy]
      exact ih h1 (ups kf y l)

/-- The entries of a store at key `k` are untouched by an upsert at a
different key. -/
theorem filter_key_upd {k j : String} {x : α} (l : List α) (hx : kf x = j)
    (hjk : j ≠ k) :
    (upd kf j x l).filter (fun y => kf y == k) = l.filter (fun y => kf y == k) := by
  unfold upd
  induction l with
  | nil => rfl
  | cons y l ihl =>
    simp only [List.map_cons]
    by_cases hc : kf y = j
    · have hyk : kf y ≠ k := fun hh => hjk (hc ▸ hh)
      have hxk : kf x ≠ k := fun hh => hjk (hx ▸ hh)
      rw [if_pos (by simp [hc]), List.filter_cons_of_neg (by simp [hxk]),
          List.filter_cons_of_neg (by simp [hyk])]
      exact ihl
    · by_cases hyk : kf y = k
      · rw [if_neg (by simp [hc]), List.filter_cons_of_pos (by simp [hyk]),
            List.filter_cons_of_pos (by simp [hyk]), ihl]
      · rw [if_neg (by simp [hc]), List.filter_cons_of_neg (by simp [hyk]),
            List.filter_cons_of_neg (by simp [hyk])]
        exact ihl

theorem filter_key_ups {k : String} {x : α} (l : List α) (hx : kf x ≠ k) :
    (ups kf x l).filter (fun y => kf y == k) = l.filter (fun y => kf y == k) := by
  unfold ups
  by_cases hp : (l.any (fun z => kf z == kf x)) = true
  · rw [if_pos hp]
    exact filter_key_upd kf l rfl hx
  · rw [if_neg hp, List.filter_append]
    simp [hx]

theorem filter_key_replay {k : String} :
    ∀ (ws : List α), (∀ x ∈ ws, kf x ≠ k) → ∀ (l : List α),
      (replay kf l ws).filter (fun y => kf y == k) = l.filter (fun y => kf y == k) := by
  intro ws
  induction ws with
  | nil => intro _ l; rfl
  | cons x ws ih =>
    intro h l
    rw [replay_cons, ih (fun z hz => h z (List.mem_cons_of_mem x hz)) (ups kf x l)]
    exact filter_key_ups kf l (h x (List.mem_cons_self x ws))

/-- After an upsert of `x`, every entry at key `kf x` is `x`. -/
theorem ups_entries_self {x : α} (l : List α) :
    ∀ y ∈ ups kf x l, kf y = kf x → y = x := by
  intro y hy hk
  unfold ups upd at hy
  split at hy
  · rcases List.mem_map.mp hy with ⟨z, _, hzy⟩
    by_cases hc : kf z = kf x
    · rw [if_pos (by simp [hc])] at hzy
      exact hzy.symm
    · rw [if_neg (by simp [hc])] at hzy
      exact absurd (hzy ▸ hk) hc
  · rename_i hp
    rcases List.mem_append.mp hy with h1 | h1
    · exfalso
      have : l.any (fun z => kf z == kf x) = true :=
        List.any_eq_true.mpr ⟨y, h1, by simp [hk]⟩
      exact hp this
    · exact List.mem_singleton.mp h1

theorem valLast_cons_of_mem {k : String} {x : α} {ws : List α}
    (h : ∃ w ∈ ws, kf w = k) : valLast kf (x :: ws) k = valLast kf ws k := by
  unfold valLast
  rcases h with ⟨w, hw, hwk⟩
  have hne : ws.filter (fun y => kf y == k) ≠ [] := by
    intro hnil
    have : w ∈ ws.filter (fun y => kf y == k) :=
      List.mem_filter.mpr ⟨hw, by simp [hwk]⟩
    rw [hnil] at this
    cases this
  by_cases hc : kf x = k
  · rw [List.filter_cons_of_pos (by simp [hc])]
    obtain ⟨b, t, hbt⟩ : ∃ b t, ws.filter (fun y => kf y == k) = b :: t := by
      cases hft : ws.filter (fun y => kf y == k) with
      | nil => exact absurd hft hne
      | cons b t => exact ⟨b, t, rfl⟩
    rw [hbt]
    exact List.getLast?_cons_cons
  · rw [List.filter_cons_of_neg (by simp [hc])]

theorem valLast_cons_of_not {k : String} {x : α} {ws : List α}
    (h : ∀ w ∈ ws, kf w ≠ k) (hx : kf x = k) :
    valLast kf (x :: ws) k = some x := by
  unfold valLast
  have hnil : ws.filter (fun y => kf y == k) = [] := by
    rw [List.filter_eq_nil_iff]
    intro w hw
    simp [h w hw]
  rw [List.filter_cons_of_pos (by simp [hx]), hnil]
  rfl

/-- Every entry at a written key after a replay holds the key's last
written value. -/
theorem replay_vals_at_key {k : String} :
    ∀ (ws : List α), (∃ x ∈ ws, kf x = k) → ∀ (l : List α),
      ∀ y ∈ replay kf l ws, kf y = k → valLast kf ws k = some y := by
  intro ws
  induction ws with
  | nil => intro h; exact absurd h (by simp)
  | cons x ws ih =>
    intro h l y hy hyk
    rw [replay_cons] at hy
    by_cases hw : ∃ w ∈ ws, kf w = k
    · rw [valLast_cons_of_mem kf hw]
      exact ih hw (ups kf x l) y hy hyk
    · push_neg at hw
      have hxk : kf x = k := by
        rcases h with ⟨w, hwm, hwk⟩
        rcases List.mem_cons.mp hwm with h2 | h2
        · exact h2 ▸ hwk
        · exact absurd hwk (hw w h2)
      rw [valLast_cons_of_not kf hw hxk]
      have hfl := filter_key_replay kf ws hw (ups kf x l)
      have hymem : y ∈ (replay kf (ups kf x l) ws).filter (fun z => kf z == k) :=
        List.mem_filter.mpr ⟨hy, by simp [hyk]⟩
      rw [hfl] at hymem
      have := ups_entries_self kf l y (List.mem_filter.mp hymem).1 (hyk.trans hxk.symm)
      rw [this]

/-- A replay leaves a store unchanged when every written key is already
present and every entry at a written key already holds that key's last
written value. -/
theorem replay_fix :
    ∀ (ws : List α) (l : List α),
      (∀ x ∈ ws, hasKey kf l (kf x) = true ∧
        ∀ y ∈ l, kf y = kf x → valLast kf ws (kf x) = some y) →
      replay kf l ws = l := by
  intro ws
  induction ws with
  | nil => intro l _; rfl
  | cons x ws ih =>
    intro l h
    obtain ⟨hpres, hval⟩ := h x (List.mem_cons_self x ws)
    have hnext : ∀ z ∈ ws, hasKey kf l (kf z) = true ∧
        ∀ y ∈ l, kf y = kf z → valLast kf ws (kf z) = some y := by
      intro z hz
      obtain ⟨hp, hv⟩ := h z (List.mem_cons_of_mem x hz)
      refine ⟨hp, fun y hy hyk => ?_⟩
      rw [← hv y hy hyk]
      exact (valLast_cons_of_mem kf ⟨z, hz, rfl⟩).symm
    rw [replay_cons]
    have hups : ups kf x l = upd kf (kf x) x l := by
      unfold ups hasKey at *
      rw [if_pos hpres]
    by_cases hw : ∃ w ∈ ws, kf w = kf x
    · rw [hups, replay_upd_absorb kf rfl ws hw l]
      exact ih l hnext
    · push_neg at hw
      have hupd : upd kf (kf x) x l = l := by
        refine upd_id_of_eq kf (fun y hy hyk => ?_)
        have := hval y hy hyk
        rw [valLast_cons_of_not kf hw rfl] at this
        exact (Option.some_inj.mp this).symm
      rw [hups, hupd]
      exact ih l hnext

end KeyedStore

/-! ## Characterizing the per-service loop -/

/-- Everything one iteration of `Sync`'s loop contributes, as a pure
function of the service (and the injected API failures): the keyed
writes to each object store, the apply calls, the errors, the names
inserted into `desiredRoutes`, the endpoint count, and the number of
successful route applies. -/
structure SvcDelta where
  serviceWrites : List KService
  sliceWrites : List KEndpointSlice
  routeWrites : List KRoute
  applies : List ApplyCall
  errs : List SyncError
  routeNames : List String
  endpoints : Nat
  routeSucc : Nat

/-- The contribution of a single service, following the control flow of
`Sync`'s loop body. -/
def svcDelta (api : Api) (cfg : HTTPRouteConfig) (svc : ServiceState) : SvcDelta :=
  let name := sanitizeName svc.name
  match svc.instances with
  | [] => ⟨[], [], [], [], [], [], 0, 0⟩
  | inst :: _ =>
    let port := toInt32 inst.port
    if port < 1 || port > 65535 then ⟨[], [], [], [], [], [], 0, 0⟩
    else
      let ne := svc.instances.length
      if api.applyServiceFails name then
        ⟨[], [], [], [], [SyncError.applyService name], [], ne, 0⟩
      else
        let sw : List KService := [⟨name, true, port⟩]
        let ap1 := [ApplyCall.service name port]
        if api.applySliceFails name then
          ⟨sw, [], [], ap1, [SyncError.applySlice name], [], ne, 0⟩
        else
          let slw : List KEndpointSlice :=
            [⟨name ++ "-consul", true, name, port, svc.instances.map (fun i => i.address)⟩]
          let ap2 := ap1 ++
            [ApplyCall.slice (name ++ "-consul") port (svc.instances.map (fun i => i.address))]
          if cfg.enabled then
            let rnI := name ++ "-" ++ cfg.internalGateway
            let dI :=
              if hasTag svc.tags cfg.internalTag then
                if api.applyRouteFails rnI then
                  (([] : List KRoute), ([] : List ApplyCall),
                   [SyncError.applyRoute rnI], [rnI], 0)
                else
                  ([(⟨rnI, true, name, cfg.internalGateway,
                      name ++ "." ++ cfg.domainSuffix, port⟩ : KRoute)],
                   [ApplyCall.route rnI name cfg.internalGateway
                     (name ++ "." ++ cfg.domainSuffix) port],
                   ([] : List SyncError), [rnI], 1)
              else (([] : List KRoute), ([] : List ApplyCall), ([] : List SyncError),
                    ([] : List String), 0)
            let rnE := name ++ "-" ++ cfg.externalGateway
            let dE :=
              if hasTag svc.tags cfg.externalTag then
                if api.applyRouteFails rnE then
                  (([] : List KRoute), ([] : List ApplyCall),
                   [SyncError.applyRoute rnE], [rnE], 0)
                else
                  ([(⟨rnE, true, name, cfg.externalGateway,
                      name ++ "." ++ cfg.domainSuffix, port⟩ : KRoute)],
                   [ApplyCall.route rnE name cfg.externalGateway
                     (name ++ "." ++ cfg.domainSuffix) port],
                   ([] : List SyncError), [rnE], 1)
              else (([] : List KRoute), ([] : List ApplyCall), ([] : List SyncError),
                    ([] : List String), 0)
            ⟨sw, slw, dI.1 ++ dE.1, ap2 ++ dI.2.1 ++ dE.2.1,
             dI.2.2.1 ++ dE.2.2.1, dI.2.2.2.1 ++ dE.2.2.2.1, ne,
             dI.2.2.2.2 + dE.2.2.2.2⟩
          else
            ⟨sw, slw, [], ap2, [], [], ne, 0⟩

/-- One loop iteration, expressed through its `svcDelta`. -/
theorem processService_eq (api : Api) (cfg : HTTPRouteConfig) (st : LoopState)
    (svc : ServiceState) :
    processService api cfg st svc =
      { world := ⟨replay KService.name st.world.services (svcDelta api cfg svc).serviceWrites,
                  replay KEndpointSlice.name st.world.slices (svcDelta api cfg svc).sliceWrites,
                  replay KRoute.name st.world.routes (svcDelta api cfg svc).routeWrites⟩,
        applies := st.applies ++ (svcDelta api cfg svc).applies,
        errs := st.errs ++ (svcDelta api cfg svc).errs,
        desired := insertName st.desired (sanitizeName svc.name),
        desiredRoutes := List.foldl insertName st.desiredRoutes (svcDelta api cfg svc).routeNames,
        totalEndpoints := st.totalEndpoints + (svcDelta api cfg svc).endpoints,
        routeCount := st.routeCount + (svcDelta api cfg svc).routeSucc } := by
  obtain ⟨⟨wsv, wsl, wrt⟩, ap, er, de, dr, te, rc⟩ := st
  obtain ⟨nm, insts, tags⟩ := svc
  cases insts with
  | nil => simp [processService, svcDelta, replay]
  | cons inst rest =>
    simp only [processService, svcDelta]
    by_cases hport : (toInt32 inst.port < 1 || toInt32 inst.port > 65535) = true
    · simp [hport, replay]
    · simp only [Bool.not_eq_true] at hport
      by_cases hsf : api.applyServiceFails (sanitizeName nm) = true
      · simp [hport, hsf, replay]
      · simp only [Bool.not_eq_true] at hsf
        by_cases hslf : api.applySliceFails (sanitizeName nm) = true
        · simp [hport, hsf, hslf, replay, applyServiceW]
        · simp only [Bool.not_eq_true] at hslf
          by_cases hen : cfg.enabled = true
          · by_cases htI : hasTag tags cfg.internalTag = true
            · by_cases hrfI : api.applyRouteFails
                  (sanitizeName nm ++ "-" ++ cfg.internalGateway) = true
              · by_cases htE : hasTag tags cfg.externalTag = true
                · by_cases hrfE : api.applyRouteFails
                      (sanitizeName nm ++ "-" ++ cfg.externalGateway) = true
                  · simp [hport, hsf, hslf, hen, htI, hrfI, htE, hrfE, replay,
                      applyServiceW, applySliceW, applyRouteW]
                  · simp only [Bool.not_eq_true] at hrfE
                    simp [hport, hsf, hslf, hen, htI, hrfI, htE, hrfE, replay,
                      applyServiceW, applySliceW, applyRouteW]
                · simp [hport, hsf, hslf, hen, htI, hrfI, htE, replay,
                    applyServiceW, applySliceW, applyRouteW]
              · simp only [Bool.not_eq_true] at hrfI
                by_cases htE : hasTag tags cfg.externalTag = true
                · by_cases hrfE : api.applyRouteFails
                      (sanitizeName nm ++ "-" ++ cfg.externalGateway) = true
                  · simp [hport, hsf, hslf, hen, htI, hrfI, htE, hrfE, replay,
                      applyServiceW, applySliceW, applyRouteW]
                  · simp only [Bool.not_eq_true] at hrfE
                    simp [hport, hsf, hslf, hen, htI, hrfI, htE, hrfE, replay,
                      applyServiceW, applySliceW, applyRouteW]
                · simp [hport, hsf, hslf, hen, htI, hrfI, htE, replay,
                    applyServiceW, applySliceW, applyRouteW]
            · by_cases htE : hasTag tags cfg.externalTag = true
              · by_cases hrfE : api.applyRouteFails
                    (sanitizeName nm ++ "-" ++ cfg.externalGateway) = true
                · simp [hport, hsf, hslf, hen, htI, htE, hrfE, replay,
                    applyServiceW, applySliceW, applyRouteW]
                · simp only [Bool.not_eq_true] at hrfE
                  simp [hport, hsf, hslf, hen, htI, htE, hrfE, replay,
                    applyServiceW, applySliceW, applyRouteW]
              · simp [hport, hsf, hslf, hen, htI, htE, replay,
                  applyServiceW, applySliceW, applyRouteW]
          · simp only [Bool.not_eq_true] at hen
            simp [hport, hsf, hslf, hen, replay, applyServiceW, applySliceW]

/-! ## Aggregates over a whole cycle -/

/-- The concatenation of a per-service list over all services. -/
def aggr {β : Type} (f : ServiceState → List β) (states : List ServiceState) : List β :=
  (states.map f).flatten

/-- All Service writes of one cycle. -/
def serviceWritesOf (api : Api) (cfg : HTTPRouteConfig) (states : List ServiceState) :
    List KService :=
  aggr (fun s => (svcDelta api cfg s).serviceWrites) states

/-- All EndpointSlice writes of one cycle. -/
def sliceWritesOf (api : Api) (cfg : HTTPRouteConfig) (states : List ServiceState) :
    List KEndpointSlice :=
  aggr (fun s => (svcDelta api cfg s).sliceWrites) states

/-- All HTTPRoute writes of one cycle. -/
def routeWritesOf (api : Api) (cfg : HTTPRouteConfig) (states : List ServiceState) :
    List KRoute :=
  aggr (fun s => (svcDelta api cfg s).routeWrites) states

/-- All apply calls of one cycle, in order. -/
def appliesOf (api : Api) (cfg : HTTPRouteConfig) (states : List ServiceState) :
    List ApplyCall :=
  aggr (fun s => (svcDelta api cfg s).applies) states

/-- All loop errors of one cycle, in order. -/
def errsOf (api : Api) (cfg : HTTPRouteConfig) (states : List ServiceState) :
    List SyncError :=
  aggr (fun s => (svcDelta api cfg s).errs) states

/-- All names inserted into `desiredRoutes` during one cycle, in order. -/
def routeNamesOf (api : Api) (cfg : HTTPRouteConfig) (states : List ServiceState) :
    List String :=
  aggr (fun s => (svcDelta api cfg s).routeNames) states

/-- The `DesiredSet` of one cycle: the `desired` map built by the loop. -/
def desiredOf (states : List ServiceState) : List String :=
  states.foldl (fun a s => insertName a (sanitizeName s.name)) []

/-- The `routeCount` counter of one cycle. -/
def routeSuccOf (api : Api) (cfg : HTTPRouteConfig) (states : List ServiceState) : Nat :=
  (states.map (fun s => (svcDelta api cfg s).routeSucc)).sum

theorem aggr_nil {β : Type} (f : ServiceState → List β) : aggr f [] = [] := rfl

theorem aggr_cons {β : Type} (f : ServiceState → List β) (s : ServiceState)
    (states : List ServiceState) : aggr f (s :: states) = f s ++ aggr f states := by
  simp [aggr]

/-- The whole loop of `Sync`, expressed through the per-cycle aggregates.
All components other than the orchestrator state depend only on the
inputs, not on the orchestrator state the cycle starts from. -/
theorem foldl_process (api : Api) (cfg : HTTPRouteConfig) (states : List ServiceState) :
    ∀ st : LoopState,
      states.foldl (processService api cfg) st =
        { world := ⟨replay KService.name st.world.services (serviceWritesOf api cfg states),
                    replay KEndpointSlice.name st.world.slices (sliceWritesOf api cfg states),
                    replay KRoute.name st.world.routes (routeWritesOf api cfg states)⟩,
          applies := st.applies ++ appliesOf api cfg states,
          errs := st.errs ++ errsOf api cfg states,
          desired := states.foldl (fun a s => insertName a (sanitizeName s.name)) st.desired,
          desiredRoutes := List.foldl insertName st.desiredRoutes (routeNamesOf api cfg states),
          totalEndpoints := st.totalEndpoints +
            (states.map (fun s => (svcDelta api cfg s).endpoints)).sum,
          routeCount := st.routeCount + routeSuccOf api cfg states } := by
  induction states with
  | nil =>
    intro st
    obtain ⟨⟨wsv, wsl, wrt⟩, ap, er, de, dr, te, rc⟩ := st
    simp [serviceWritesOf, sliceWritesOf, routeWritesOf, appliesOf, errsOf,
      routeNamesOf, routeSuccOf, aggr, replay]
  | cons s states ih =>
    intro st
    rw [List.foldl_cons, processService_eq, ih]
    simp only [serviceWritesOf, sliceWritesOf, routeWritesOf, appliesOf, errsOf,
      routeNamesOf, routeSuccOf, aggr_cons, List.map_cons, List.sum_cons]
    rw [replay_append, replay_append, replay_append, List.append_assoc,
      List.append_assoc, List.foldl_append, List.foldl_cons, Nat.add_assoc,
      Nat.add_assoc]

/-! ## Characterizing cleanup -/

/-- The orphaned Services of a cycle: listed under the managed-by label
selector and absent from `desired`. -/
def orphansOf (w : World) (desired : List String) : List KService :=
  w.services.filter (fun s => s.managed && !(desired.contains s.name))

/-- The delete calls `cleanup` makes for a list of orphans. -/
def delPairs (orphans : List KService) : List DeleteCall :=
  (orphans.map (fun o =>
    [DeleteCall.slice (o.name ++ "-consul"), DeleteCall.service o.name])).flatten

/-- The orphaned HTTPRoutes of a cycle. -/
def routeOrphansOf (w : World) (droutes : List String) : List KRoute :=
  w.routes.filter (fun r => r.managed && !(droutes.contains r.name))

theorem cleanupGo_eq {api : Api} (hds : ∀ n, api.deleteSliceFails n = false)
    (hdv : ∀ n, api.deleteServiceFails n = false) :
    ∀ (orphans : List KService) (w : World) (dels : List DeleteCall),
      cleanupGo api orphans w dels =
        (⟨w.services.filter (fun s => !((orphans.map KService.name).contains s.name)),
          w.slices.filter (fun s =>
            !((orphans.map (fun o => o.name ++ "-consul")).contains s.name)),
          w.routes⟩,
         dels ++ delPairs orphans, false) := by
  intro orphans
  induction orphans with
  | nil =>
    intro w dels
    simp [cleanupGo, delPairs]
  | cons o rest ih =>
    intro w dels
    simp only [cleanupGo, hds o.name, hds (o.name ++ "-consul"), hdv o.name,
      Bool.false_eq_true, if_false, ite_false]
    rw [ih]
    refine congrArg₂ Prod.mk ?_ (congrArg₂ Prod.mk ?_ rfl)
    · show (⟨_, _, _⟩ : World) = _
      refine congrArg₂ (World.mk · · _) ?_ ?_
      · show ((removeServiceW (removeSliceW w (o.name ++ "-consul")) o.name).services.filter _) = _
        simp only [removeServiceW, removeSliceW, List.filter_filter]
        refine List.filter_congr (fun s _ => ?_)
        simp only [List.map_cons, List.contains_cons]
        cases h1 : s.name == o.name <;> simp [h1]
      · show ((removeServiceW (removeSliceW w (o.name ++ "-consul")) o.name).slices.filter _) = _
        simp only [removeServiceW, removeSliceW, List.filter_filter]
        refine List.filter_congr (fun s _ => ?_)
        simp only [List.map_cons, List.contains_cons]
        cases h1 : s.name == o.name ++ "-consul" <;> simp [h1]
    · simp [delPairs, List.append_assoc]

theorem cleanupGo_deletes_sub (api : Api) :
    ∀ (orphans : List KService) (w : World) (dels : List DeleteCall),
      ∀ d ∈ (cleanupGo api orphans w dels).2.1,
        d ∈ dels ∨ ∃ o ∈ orphans,
          d = DeleteCall.slice (o.name ++ "-consul") ∨ d = DeleteCall.service o.name := by
  intro orphans
  induction orphans with
  | nil => intro w dels d hd; exact Or.inl hd
  | cons o rest ih =>
    intro w dels d hd
    simp only [cleanupGo] at hd
    split at hd
    · simp only at hd
      rcases List.mem_append.mp hd with h1 | h1
      · exact Or.inl h1
      · rcases List.mem_cons.mp h1 with h2 | h2
        · exact Or.inr ⟨o, List.mem_cons_self o rest, Or.inl h2⟩
        · exact Or.inr ⟨o, List.mem_cons_self o rest,
            Or.inr (List.mem_singleton.mp h2)⟩
    · rcases ih _ _ d hd with h1 | h1
      · rcases List.mem_append.mp h1 with h2 | h2
        · exact Or.inl h2
        · rcases List.mem_cons.mp h2 with h3 | h3
          · exact Or.inr ⟨o, List.mem_cons_self o rest, Or.inl h3⟩
          · exact Or.inr ⟨o, List.mem_cons_self o rest,
              Or.inr (List.mem_singleton.mp h3)⟩
      · rcases h1 with ⟨o1, ho1, hd1⟩
        exact Or.inr ⟨o1, List.mem_cons_of_mem o ho1, hd1⟩

theorem cleanupRoutesGo_dels (api : Api) :
    ∀ (orphans : List KRoute) (w : World) (dels : List DeleteCall),
      (cleanupRoutesGo api orphans w dels).2 =
        dels ++ orphans.map (fun o => DeleteCall.route o.name) := by
  intro orphans
  induction orphans with
  | nil => intro w dels; simp [cleanupRoutesGo]
  | cons o rest ih =>
    intro w dels
    simp only [cleanupRoutesGo]
    rw [ih]
    simp

theorem cleanupRoutesGo_eq {api : Api} (hdr : ∀ n, api.deleteRouteFails n = false) :
    ∀ (orphans : List KRoute) (w : World) (dels : List DeleteCall),
      cleanupRoutesGo api orphans w dels =
        (⟨w.services, w.slices,
          w.routes.filter (fun r => !((orphans.map KRoute.name).contains r.name))⟩,
         dels ++ orphans.map (fun o => DeleteCall.route o.name)) := by
  intro orphans
  induction orphans with
  | nil => intro w dels; simp [cleanupRoutesGo]
  | cons o rest ih =>
    intro w dels
    simp only [cleanupRoutesGo, hdr o.name, Bool.false_eq_true, if_false, ite_false]
    rw [ih]
    refine congrArg₂ Prod.mk ?_ (by simp)
    show (⟨_, _, _⟩ : World) = _
    refine congrArg (World.mk _ _) ?_
    show ((removeRouteW w o.name).routes.filter _) = _
    simp only [removeRouteW, List.filter_filter]
    refine List.filter_congr (fun r _ => ?_)
    simp only [List.map_cons, List.contains_cons]
    cases h1 : r.name == o.name <;> simp [h1]

/-- An API whose list and delete calls all succeed (apply calls may still
fail). -/
def Api.cleanOk (api : Api) : Prop :=
  api.listServicesFails = false ∧ api.listRoutesFails = false ∧
  (∀ n, api.deleteServiceFails n = false) ∧
  (∀ n, api.deleteSliceFails n = false) ∧
  (∀ n, api.deleteRouteFails n = false)

theorem api_ok_cleanOk : Api.ok.cleanOk :=
  ⟨rfl, rfl, fun _ => rfl, fun _ => rfl, fun _ => rfl⟩

/-- The orchestrator state after the apply phase of one cycle. -/
def postApplyWorld (api : Api) (cfg : HTTPRouteConfig) (states : List ServiceState)
    (w : World) : World :=
  ⟨replay KService.name w.services (serviceWritesOf api cfg states),
   replay KEndpointSlice.name w.slices (sliceWritesOf api cfg states),
   replay KRoute.name w.routes (routeWritesOf api cfg states)⟩

/-- The `desiredRoutes` map at the end of one cycle. -/
def desiredRoutesOf (api : Api) (cfg : HTTPRouteConfig) (states : List ServiceState) :
    List String :=
  List.foldl insertName [] (routeNamesOf api cfg states)

/-- The orchestrator state after `cleanup` removed orphaned Services and
their EndpointSlices. -/
def svcCleanedWorld (A : World) (desired : List String) : World :=
  ⟨A.services.filter (fun s =>
      !(((orphansOf A desired).map KService.name).contains s.name)),
   A.slices.filter (fun s =>
      !(((orphansOf A desired).map (fun o => o.name ++ "-consul")).contains s.name)),
   A.routes⟩

/-- The orchestrator state after `cleanupHTTPRoutes`. -/
def routeCleanedWorld (B : World) (droutes : List String) : World :=
  ⟨B.services, B.slices,
   B.routes.filter (fun r =>
      !(((routeOrphansOf B droutes).map KRoute.name).contains r.name))⟩

/-- A full characterization of `Sync` for an API whose list and delete
calls succeed. -/
theorem runSync_eq (api : Api) (cfg : HTTPRouteConfig) (states : List ServiceState)
    (w : World) (hc : api.cleanOk) :
    runSync api cfg states w =
      { world := if cfg.enabled then
            routeCleanedWorld
              (svcCleanedWorld (postApplyWorld api cfg states w) (desiredOf states))
              (desiredRoutesOf api cfg states)
          else svcCleanedWorld (postApplyWorld api cfg states w) (desiredOf states),
        applies := appliesOf api cfg states,
        deletes := delPairs (orphansOf (postApplyWorld api cfg states w) (desiredOf states)) ++
          (if cfg.enabled then
            (routeOrphansOf
              (svcCleanedWorld (postApplyWorld api cfg states w) (desiredOf states))
              (desiredRoutesOf api cfg states)).map (fun o => DeleteCall.route o.name)
          else []),
        errs := errsOf api cfg states,
        desired := desiredOf states,
        desiredRoutes := desiredRoutesOf api cfg states,
        syncedServicesGauge := (desiredOf states).length,
        syncedEndpointsGauge := (states.map (fun s => (svcDelta api cfg s).endpoints)).sum,
        syncedRoutesGauge := if cfg.enabled then some (routeSuccOf api cfg states) else none } := by
  obtain ⟨hls, hlr, hdv, hds, hdr⟩ := hc
  unfold runSync
  rw [foldl_process]
  simp only
  unfold cleanup
  rw [hls]
  simp only [Bool.false_eq_true, if_false, ite_false]
  rw [cleanupGo_eq hds hdv]
  by_cases hen : cfg.enabled = true
  · simp only [hen, if_true, ite_true]
    unfold cleanupRoutes
    rw [hlr]
    simp only [Bool.false_eq_true, if_false, ite_false]
    rw [cleanupRoutesGo_eq hdr]
    simp [svcCleanedWorld, routeCleanedWorld, orphansOf, routeOrphansOf,
      postApplyWorld, desiredOf, desiredRoutesOf]
  · simp only [Bool.not_eq_true] at hen
    simp only [hen, Bool.false_eq_true, if_false, ite_false]
    simp [svcCleanedWorld, orphansOf, postApplyWorld, desiredOf, desiredRoutesOf]

/-! ## Backoff lemmas -/

theorem min_pow_mul_cap (k b : Nat) :
    min (2 ^ k * min (b * 2) 30) 30 = min (2 ^ k * (b * 2)) 30 := by
  rcases le_total (b * 2) 30 with h | h
  · rw [min_eq_left h]
  · have hc : 1 ≤ 2 ^ k := Nat.one_le_two_pow
    rw [min_eq_right h]
    rw [Nat.min_eq_right (Nat.le_mul_of_pos_left 30 (by omega))]
    rw [Nat.min_eq_right (le_trans h (Nat.le_mul_of_pos_left (b * 2) (by omega)))]

theorem watchWaits_replicate (n : Nat) :
    ∀ b : Nat, b ≤ 30 →
      watchWaits (List.replicate n true) b =
        (List.range n).map (fun k => min (2 ^ k * b) 30) := by
  induction n with
  | zero => intro b _; rfl
  | succ n ih =>
    intro b hb
    rw [List.replicate_succ]
    show [b] ++ watchWaits (List.replicate n true) (backoffStep b) = _
    rw [List.range_succ_eq_map, List.map_cons, List.map_map]
    have h0 : min (2 ^ 0 * b) 30 = b := by
      simp [Nat.min_eq_left hb]
    rw [h0]
    have hb2 : backoffStep b ≤ 30 := min_le_right _ _
    rw [ih (backoffStep b) hb2]
    refine congrArg (b :: ·) ?_
    refine List.map_congr_left (fun k _ => ?_)
    show min (2 ^ k * backoffStep b) 30 = min (2 ^ (k + 1) * b) 30
    unfold backoffStep
    rw [min_pow_mul_cap]
    congr 1
    rw [pow_succ]
    ring

theorem watchWaits_le (outcomes : List Bool) :
    ∀ b : Nat, b ≤ 30 → ∀ x ∈ watchWaits outcomes b, x ≤ 30 := by
  induction outcomes with
  | nil => intro b _ x hx; cases hx
  | cons o rest ih =>
    intro b hb x hx
    cases o with
    | true =>
      rcases List.mem_cons.mp hx with h1 | h1
      · exact h1 ▸ hb
      · exact ih (backoffStep b) (min_le_right _ _) x h1
    | false => exact ih 1 (by omega) x hx

theorem watchWaits_append (xs ys : List Bool) :
    ∀ b : Nat, watchWaits (xs ++ ys) b =
      watchWaits xs b ++ watchWaits ys (backoffAfter xs b) := by
  induction xs with
  | nil => intro b; rfl
  | cons o rest ih =>
    intro b
    show (watchStep b o).2 ++ watchWaits (rest ++ ys) (watchStep b o).1 = _
    rw [ih]
    simp [watchWaits, backoffAfter, List.append_assoc]

/-- C9.  In the watcher loop, the wait before the n-th consecutive
`ListServices` failure retry is `min(2^(n-1), 30)` seconds: three
consecutive failures from the initial (or reset) backoff wait 1, 2, 4
seconds, in general the n-th consecutive failure waits `min(2^(n-1), 30)`
seconds, no wait in any run starting from the initial backoff exceeds 30
seconds, and the first failure after any success waits exactly 1 second
again (the backoff resets to the floor on success). -/
theorem backoff_behaviour :
    watchWaits (List.replicate 3 true) 1 = [1, 2, 4] ∧
    (∀ n : Nat, watchWaits (List.replicate n true) 1 =
      (List.range n).map (fun k => min (2 ^ k) 30)) ∧
    (∀ outcomes : List Bool,
      (watchWaits outcomes 1).all (fun x => decide (x ≤ 30)) = true) ∧
    (∀ (pre rest : List Bool) (b : Nat),
      watchWaits (pre ++ false :: true :: rest) b =
        watchWaits pre b ++ 1 :: watchWaits rest 2) := by
  refine ⟨by decide, fun n => ?_, fun outcomes => ?_, fun pre rest b => ?_⟩
  · rw [watchWaits_replicate n 1 (by omega)]
    refine List.map_congr_left (fun k _ => ?_)
    rw [Nat.mul_one]
  · rw [List.all_eq_true]
    intro x hx
    exact decide_eq_true (watchWaits_le outcomes 1 (by omega) x hx)
  · rw [watchWaits_append]
    show watchWaits pre b ++ ([] ++ ([1] ++ watchWaits rest (backoffStep 1))) = _
    rfl

/-! ## Sanitization claims -/

/-- A 65-character registry name whose sanitized form is cut exactly
after a hyphen by the 63-byte truncation. -/
def c7Input : String := String.mk (List.replicate 62 'a' ++ ['-', 'a', 'a'])

/-- C7.  `sanitizeName` violates its own contract on `c7Input`: the
output ends in `-` (not an orchestrator-legal identifier, contradicting
the function's doc comment "converts a Consul service name into a valid
Kubernetes name") and applying `sanitizeName` a second time gives a
different string, refuting idempotency.  The truncation to 63 bytes runs
after the hyphen trim and can expose a trailing hyphen. -/
theorem sanitize_trailing_hyphen_bug :
    sanitizeName c7Input = String.mk (List.replicate 62 'a' ++ ['-']) ∧
    (sanitizeName c7Input).data.getLast? = some '-' ∧
    sanitizeName (sanitizeName c7Input) ≠ sanitizeName c7Input := by decide

/-! ## Concrete scenarios -/

/-- The default HTTPRoute configuration of the README. -/
def cfgDefault : HTTPRouteConfig :=
  ⟨true, "k8s.example.io", "envoy-internal", "envoy-external", "network",
   "https", "internal", "external"⟩

/-- An orchestrator with no objects. -/
def emptyWorld : World := ⟨[], [], []⟩

/-- A registry service named `___` with one healthy instance. -/
def underscoreState : ServiceState := ⟨"___", [⟨"___", "10.0.0.2", 80, []⟩], []⟩

/-- C10.  The non-empty registry name `___` (only characters that
sanitize to hyphens) sanitizes to the empty string; `Sync` then inserts
the empty identifier into `DesiredSet` and applies a Service and an
EndpointSlice with the empty name — no code path rejects an empty
sanitized name. -/
theorem empty_sanitized_name :
    underscoreState.name ≠ "" ∧
    sanitizeName "___" = "" ∧
    "" ∈ (runSync Api.ok cfgDefault [underscoreState] emptyWorld).desired ∧
    ApplyCall.service "" 80 ∈
      (runSync Api.ok cfgDefault [underscoreState] emptyWorld).applies := by decide

/-- The ServiceState of §8's zero-instance example. -/
def barState : ServiceState := ⟨"bar", [], []⟩

/-- A world holding the previously-created managed objects for `bar`. -/
def barWorld : World :=
  ⟨[⟨"bar", true, 80⟩], [⟨"bar-consul", true, "bar", 80, ["10.0.0.1"]⟩], []⟩

/-- C1 (counterexample).  A `ServiceState` named `bar` with an empty
instance list does NOT behave as claimed: `Sync` inserts `bar` into
`desired` before the zero-instance check, so the cycle issues no delete
call at all, the previously-managed Service and EndpointSlice survive,
and the synced-service gauge (set to `len(desired)`) counts the
service. -/
theorem zeroInstance_kept_counterexample :
    barState.instances = [] ∧
    (runSync Api.ok cfgDefault [barState] barWorld).deletes = [] ∧
    (⟨"bar", true, 80⟩ : KService) ∈
      (runSync Api.ok cfgDefault [barState] barWorld).world.services ∧
    (⟨"bar-consul", true, "bar", 80, ["10.0.0.1"]⟩ : KEndpointSlice) ∈
      (runSync Api.ok cfgDefault [barState] barWorld).world.slices ∧
    "bar" ∈ (runSync Api.ok cfgDefault [barState] barWorld).desired ∧
    (runSync Api.ok cfgDefault [barState] barWorld).syncedServicesGauge = 1 := by decide

/-- A service whose first instance reports port 2^32 + 80: outside
1–65535, but equal to 80 after Go's `int32` conversion. -/
def wrapState : ServiceState := ⟨"web", [⟨"web", "10.0.0.1", 4294967376, []⟩], []⟩

/-- C5 (counterexample).  The port of `wrapState`'s first instance is
outside 1–65535, yet `Sync` does not skip the service: the `int32`
conversion applied before the range check wraps 4294967376 to 80, and
the Service and EndpointSlice are applied with port 80. -/
theorem invalid_port_wrap_counterexample :
    (wrapState.instances.map (fun i => i.port)) = [4294967376] ∧
    ¬(1 ≤ (4294967376 : Int) ∧ (4294967376 : Int) ≤ 65535) ∧
    ApplyCall.service "web" 80 ∈
      (runSync Api.ok cfgDefault [wrapState] emptyWorld).applies ∧
    ApplyCall.slice "web-consul" 80 ["10.0.0.1"] ∈
      (runSync Api.ok cfgDefault [wrapState] emptyWorld).applies := by decide

/-- A world with a managed Service `foo` and a hand-created (unmanaged)
EndpointSlice that happens to be named `foo-consul`. -/
def fooWorld : World :=
  ⟨[⟨"foo", true, 80⟩], [⟨"foo-consul", false, "foo", 80, ["10.0.0.1"]⟩], []⟩

/-- C6 (counterexample).  An object without the managed-by marker can be
deleted by `sync`: when the managed Service `foo` is orphaned, `cleanup`
deletes the EndpointSlice by the derived name `foo-consul` without
checking its labels, so the hand-created slice is deleted. -/
theorem unmanaged_slice_deleted_counterexample :
    (∀ sl ∈ fooWorld.slices, sl.managed = false) ∧
    DeleteCall.slice "foo-consul" ∈ (runSync Api.ok cfgDefault [] fooWorld).deletes ∧
    (runSync Api.ok cfgDefault [] fooWorld).world.slices = [] := by decide

/-! ## Support lemmas for the cycle-level claims -/

theorem contains_true_iff (l : List String) (n : String) :
    l.contains n = true ↔ n ∈ l := by simp

theorem string_append_right_cancel {a b s : String} (h : a ++ s = b ++ s) :
    a = b := by
  have h1 : a.data ++ s.data = b.data ++ s.data := by
    rw [← String.data_append, ← String.data_append, h]
  have h2 : a.data = b.data := List.append_cancel_right h1
  cases a; cases b
  exact congrArg String.mk h2

theorem mem_aggr {β : Type} (f : ServiceState → List β) (states : List ServiceState)
    (x : β) : x ∈ aggr f states ↔ ∃ s ∈ states, x ∈ f s := by
  simp [aggr]

theorem mem_insertName (l : List String) (n m : String) :
    m ∈ insertName l n ↔ m ∈ l ∨ m = n := by
  unfold insertName
  split
  · rename_i h
    constructor
    · exact Or.inl
    · rintro (h1 | rfl)
      · exact h1
      · exact (contains_true_iff l m).mp h
  · simp

theorem mem_foldl_insertName (ns : List String) :
    ∀ (init : List String) (m : String),
      m ∈ List.foldl insertName init ns ↔ m ∈ init ∨ m ∈ ns := by
  induction ns with
  | nil => intro init m; simp
  | cons n ns ih =>
    intro init m
    rw [List.foldl_cons, ih]
    rw [mem_insertName]
    constructor
    · rintro ((h | rfl) | h)
      · exact Or.inl h
      · exact Or.inr (List.mem_cons_self _ _)
      · exact Or.inr (List.mem_cons_of_mem _ h)
    · rintro (h | h)
      · exact Or.inl (Or.inl h)
      · rcases List.mem_cons.mp h with rfl | h1
        · exact Or.inl (Or.inr rfl)
        · exact Or.inr h1

theorem mem_desiredOf (states : List ServiceState) (n : String) :
    n ∈ desiredOf states ↔ ∃ s ∈ states, sanitizeName s.name = n := by
  unfold desiredOf
  rw [show (fun (a : List String) (s : ServiceState) => insertName a (sanitizeName s.name)) =
    (fun a b => insertName a ((fun s : ServiceState => sanitizeName s.name) b)) from rfl,
    ← List.foldl_map, mem_foldl_insertName]
  simp [eq_comm]

theorem mem_desiredRoutesOf (api : Api) (cfg : HTTPRouteConfig)
    (states : List ServiceState) (n : String) :
    n ∈ desiredRoutesOf api cfg states ↔ n ∈ routeNamesOf api cfg states := by
  unfold desiredRoutesOf
  rw [mem_foldl_insertName]
  simp

theorem svcDelta_ok_errs (cfg : HTTPRouteConfig) (svc : ServiceState) :
    (svcDelta Api.ok cfg svc).errs = [] := by
  obtain ⟨nm, insts, tags⟩ := svc
  cases insts with
  | nil => rfl
  | cons inst rest =>
    by_cases hport : (toInt32 inst.port < 1 || toInt32 inst.port > 65535) = true
    · simp [svcDelta, hport]
    · by_cases hen : cfg.enabled = true
      · by_cases htI : hasTag tags cfg.internalTag = true
        · by_cases htE : hasTag tags cfg.externalTag = true
          · simp [svcDelta, hport, hen, htI, htE, Api.ok]
          · simp [svcDelta, hport, hen, htI, htE, Api.ok]
        · by_cases htE : hasTag tags cfg.externalTag = true
          · simp [svcDelta, hport, hen, htI, htE, Api.ok]
          · simp [svcDelta, hport, hen, htI, htE, Api.ok]
      · simp only [Bool.not_eq_true] at hen
        simp [svcDelta, hport, hen, Api.ok]

theorem errsOf_ok (cfg : HTTPRouteConfig) (states : List ServiceState) :
    errsOf Api.ok cfg states = [] := by
  induction states with
  | nil => rfl
  | cons s states ih =>
    unfold errsOf at *
    rw [aggr_cons, svcDelta_ok_errs, List.nil_append, ih]

theorem svcDelta_serviceWrites_shape (api : Api) (cfg : HTTPRouteConfig)
    (svc : ServiceState) :
    ∀ x ∈ (svcDelta api cfg svc).serviceWrites,
      x.name = sanitizeName svc.name ∧ x.managed = true := by
  obtain ⟨nm, insts, tags⟩ := svc
  cases insts with
  | nil => intro x hx; cases hx
  | cons inst rest =>
    intro x hx
    by_cases hport : (toInt32 inst.port < 1 || toInt32 inst.port > 65535) = true
    · simp [svcDelta, hport] at hx
    · by_cases hsf : api.applyServiceFails (sanitizeName nm) = true
      · simp [svcDelta, hport, hsf] at hx
      · by_cases hslf : api.applySliceFails (sanitizeName nm) = true
        · simp only [svcDelta, hport, Bool.false_eq_true, if_false, ite_false,
            hsf, hslf, if_true, ite_true] at hx
          rw [List.mem_singleton.mp hx]
          exact ⟨rfl, rfl⟩
        · by_cases hen : cfg.enabled = true
          · simp only [svcDelta, hport, hsf, hslf, hen, Bool.false_eq_true,
              if_false, ite_false, if_true, ite_true] at hx
            rw [List.mem_singleton.mp hx]
            exact ⟨rfl, rfl⟩
          · simp only [Bool.not_eq_true] at hen
            simp only [svcDelta, hport, hsf, hslf, hen, Bool.false_eq_true,
              if_false, ite_false] at hx
            rw [List.mem_singleton.mp hx]
            exact ⟨rfl, rfl⟩

theorem svcDelta_sliceWrites_shape (api : Api) (cfg : HTTPRouteConfig)
    (svc : ServiceState) :
    ∀ x ∈ (svcDelta api cfg svc).sliceWrites,
      x.name = sanitizeName svc.name ++ "-consul" ∧ x.managed = true := by
  obtain ⟨nm, insts, tags⟩ := svc
  cases insts with
  | nil => intro x hx; cases hx
  | cons inst rest =>
    intro x hx
    by_cases hport : (toInt32 inst.port < 1 || toInt32 inst.port > 65535) = true
    · simp [svcDelta, hport] at hx
    · by_cases hsf : api.applyServiceFails (sanitizeName nm) = true
      · simp [svcDelta, hport, hsf] at hx
      · by_cases hslf : api.applySliceFails (sanitizeName nm) = true
        · simp [svcDelta, hport, hsf, hslf] at hx
        · by_cases hen : cfg.enabled = true
          · simp only [svcDelta, hport, hsf, hslf, hen, Bool.false_eq_true,
              if_false, ite_false, if_true, ite_true] at hx
            rw [List.mem_singleton.mp hx]
            exact ⟨rfl, rfl⟩
          · simp only [Bool.not_eq_true] at hen
            simp only [svcDelta, hport, hsf, hslf, hen, Bool.false_eq_true,
              if_false, ite_false] at hx
            rw [List.mem_singleton.mp hx]
            exact ⟨rfl, rfl⟩

theorem svcDelta_routeWrites_shape (api : Api) (cfg : HTTPRouteConfig)
    (svc : ServiceState) :
    ∀ x ∈ (svcDelta api cfg svc).routeWrites,
      x.managed = true ∧ x.name ∈ (svcDelta api cfg svc).routeNames := by
  obtain ⟨nm, insts, tags⟩ := svc
  cases insts with
  | nil => intro x hx; cases hx
  | cons inst rest =>
    intro x hx
    by_cases hport : (toInt32 inst.port < 1 || toInt32 inst.port > 65535) = true
    · simp [svcDelta, hport] at hx
    · by_cases hsf : api.applyServiceFails (sanitizeName nm) = true
      · simp [svcDelta, hport, hsf] at hx
      · by_cases hslf : api.applySliceFails (sanitizeName nm) = true
        · simp [svcDelta, hport, hsf, hslf] at hx
        · by_cases hen : cfg.enabled = true
          · by_cases htI : hasTag tags cfg.internalTag = true
            · by_cases hrfI : api.applyRouteFails
                  (sanitizeName nm ++ "-" ++ cfg.internalGateway) = true
              · by_cases htE : hasTag tags cfg.externalTag = true
                · by_cases hrfE : api.applyRouteFails
                      (sanitizeName nm ++ "-" ++ cfg.externalGateway) = true
                  · simp [svcDelta, hport, hsf, hslf, hen, htI, hrfI, htE, hrfE] at hx
                  · simp only [Bool.not_eq_true] at hrfE
                    simp [svcDelta, hport, hsf, hslf, hen, htI, hrfI, htE, hrfE] at hx
                    simp [svcDelta, hport, hsf, hslf, hen, htI, hrfI, htE, hrfE, hx]
                · simp [svcDelta, hport, hsf, hslf, hen, htI, hrfI, htE] at hx
              · simp only [Bool.not_eq_true] at hrfI
                by_cases htE : hasTag tags cfg.externalTag = true
                · by_cases hrfE : api.applyRouteFails
                      (sanitizeName nm ++ "-" ++ cfg.externalGateway) = true
                  · simp [svcDelta, hport, hsf, hslf, hen, htI, hrfI, htE, hrfE] at hx
                    simp [svcDelta, hport, hsf, hslf, hen, htI, hrfI, htE, hrfE, hx]
                  · simp only [Bool.not_eq_true] at hrfE
                    simp [svcDelta, hport, hsf, hslf, hen, htI, hrfI, htE, hrfE] at hx
                    rcases hx with hx | hx <;>
                      simp [svcDelta, hport, hsf, hslf, hen, htI, hrfI, htE, hrfE, hx]
                · simp [svcDelta, hport, hsf, hslf, hen, htI, hrfI, htE] at hx
                  simp [svcDelta, hport, hsf, hslf, hen, htI, hrfI, htE, hx]
            · by_cases htE : hasTag tags cfg.externalTag = true
              · by_cases hrfE : api.applyRouteFails
                    (sanitizeName nm ++ "-" ++ cfg.externalGateway) = true
                · simp [svcDelta, hport, hsf, hslf, hen, htI, htE, hrfE] at hx
                · simp only [Bool.not_eq_true] at hrfE
                  simp [svcDelta, hport, hsf, hslf, hen, htI, htE, hrfE] at hx
                  simp [svcDelta, hport, hsf, hslf, hen, htI, htE, hrfE, hx]
              · simp [svcDelta, hport, hsf, hslf, hen, htI, htE] at hx
          · simp only [Bool.not_eq_true] at hen
            simp [svcDelta, hport, hsf, hslf, hen] at hx

theorem serviceWritesOf_shape (api : Api) (cfg : HTTPRouteConfig)
    (states : List ServiceState) :
    ∀ x ∈ serviceWritesOf api cfg states,
      x.managed = true ∧ x.name ∈ desiredOf states := by
  intro x hx
  rcases (mem_aggr _ states x).mp hx with ⟨s, hs, hxs⟩
  obtain ⟨hn, hm⟩ := svcDelta_serviceWrites_shape api cfg s x hxs
  exact ⟨hm, (mem_desiredOf states x.name).mpr ⟨s, hs, hn.symm⟩⟩

theorem sliceWritesOf_shape (api : Api) (cfg : HTTPRouteConfig)
    (states : List ServiceState) :
    ∀ x ∈ sliceWritesOf api cfg states,
      x.managed = true ∧ ∃ n ∈ desiredOf states, x.name = n ++ "-consul" := by
  intro x hx
  rcases (mem_aggr _ states x).mp hx with ⟨s, hs, hxs⟩
  obtain ⟨hn, hm⟩ := svcDelta_sliceWrites_shape api cfg s x hxs
  exact ⟨hm, ⟨sanitizeName s.name,
    (mem_desiredOf states _).mpr ⟨s, hs, rfl⟩, hn⟩⟩

theorem routeWritesOf_shape (api : Api) (cfg : HTTPRouteConfig)
    (states : List ServiceState) :
    ∀ x ∈ routeWritesOf api cfg states,
      x.managed = true ∧ x.name ∈ desiredRoutesOf api cfg states := by
  intro x hx
  rcases (mem_aggr _ states x).mp hx with ⟨s, hs, hxs⟩
  obtain ⟨hm, hn⟩ := svcDelta_routeWrites_shape api cfg s x hxs
  refine ⟨hm, (mem_desiredRoutesOf api cfg states x.name).mpr ?_⟩
  exact (mem_aggr _ states x.name).mpr ⟨s, hs, hn⟩

theorem svcDelta_routeWrites_disabled (api : Api) {cfg : HTTPRouteConfig}
    (hen : cfg.enabled = false) (svc : ServiceState) :
    (svcDelta api cfg svc).routeWrites = [] := by
  obtain ⟨nm, insts, tags⟩ := svc
  cases insts with
  | nil => rfl
  | cons inst rest =>
    by_cases hport : (toInt32 inst.port < 1 || toInt32 inst.port > 65535) = true
    · simp [svcDelta, hport]
    · by_cases hsf : api.applyServiceFails (sanitizeName nm) = true
      · simp [svcDelta, hport, hsf]
      · by_cases hslf : api.applySliceFails (sanitizeName nm) = true
        · simp [svcDelta, hport, hsf, hslf]
        · simp [svcDelta, hport, hsf, hslf, hen]

theorem routeWritesOf_disabled (api : Api) {cfg : HTTPRouteConfig}
    (hen : cfg.enabled = false) (states : List ServiceState) :
    routeWritesOf api cfg states = [] := by
  induction states with
  | nil => rfl
  | cons s states ih =>
    unfold routeWritesOf at *
    rw [aggr_cons, svcDelta_routeWrites_disabled api hen, List.nil_append, ih]

theorem mem_orphansOf {A : World} {d : List String} {o : KService}
    (h : o ∈ orphansOf A d) :
    o ∈ A.services ∧ o.managed = true ∧ d.contains o.name = false := by
  obtain ⟨h1, h2⟩ := List.mem_filter.mp h
  rcases (Bool.and_eq_true _ _).mp h2 with ⟨hm, hnd⟩
  exact ⟨h1, hm, by simpa using hnd⟩

theorem mem_routeOrphansOf {B : World} {r : List String} {o : KRoute}
    (h : o ∈ routeOrphansOf B r) :
    o ∈ B.routes ∧ o.managed = true ∧ r.contains o.name = false := by
  obtain ⟨h1, h2⟩ := List.mem_filter.mp h
  rcases (Bool.and_eq_true _ _).mp h2 with ⟨hm, hnd⟩
  exact ⟨h1, hm, by simpa using hnd⟩

/-- Replaying a cycle's writes over the filtered result of the same
replay is the identity, provided the filter keeps every entry standing
at a written key. -/
theorem replay_filtered_fix {α : Type} (kf : α → String) (l0 : List α)
    (ws : List α) (p : α → Bool)
    (hkeep : ∀ y ∈ replay kf l0 ws, ∀ x ∈ ws, kf y = kf x → p y = true) :
    replay kf ((replay kf l0 ws).filter p) ws = (replay kf l0 ws).filter p := by
  refine replay_fix kf ws _ (fun x hx => ?_)
  constructor
  · have h1 := hasKey_replay_of_mem kf hx l0
    unfold hasKey at h1 ⊢
    obtain ⟨y, hy, hyk⟩ := List.any_eq_true.mp h1
    refine List.any_eq_true.mpr ⟨y, ?_, hyk⟩
    exact List.mem_filter.mpr ⟨hy, hkeep y hy x hx (beq_iff_eq.mp hyk)⟩
  · intro y hy hyk
    have hy1 : y ∈ replay kf l0 ws := (List.mem_filter.mp hy).1
    exact replay_vals_at_key kf ws ⟨x, hx, rfl⟩ l0 y hy1 hyk

theorem svcCleanedWorld_id {A : World} {d : List String}
    (h : orphansOf A d = []) : svcCleanedWorld A d = A := by
  unfold svcCleanedWorld
  rw [h]
  cases A
  simp

theorem routeCleanedWorld_id {B : World} {r : List String}
    (h : routeOrphansOf B r = []) : routeCleanedWorld B r = B := by
  unfold routeCleanedWorld
  rw [h]
  cases B
  simp

/-- After the service cleanup of a cycle, no managed Service outside
`d` remains. -/
theorem no_orphans_after_clean (A : World) (d : List String) :
    ∀ W : World, W.services = (svcCleanedWorld A d).services →
      orphansOf W d = [] := by
  intro W hW
  unfold orphansOf
  rw [hW]
  rw [List.filter_eq_nil_iff]
  intro y hy
  obtain ⟨hyA, hyp⟩ := List.mem_filter.mp hy
  intro hcontra
  have hyo : y ∈ orphansOf A d := List.mem_filter.mpr ⟨hyA, hcontra⟩
  have hname : y.name ∈ (orphansOf A d).map KService.name :=
    List.mem_map.mpr ⟨y, hyo, rfl⟩
  rw [← contains_true_iff] at hname
  rw [hname] at hyp
  cases hyp

/-- After the route cleanup of a cycle, no managed HTTPRoute outside
`r` remains. -/
theorem no_route_orphans_after_clean (B : World) (r : List String) :
    ∀ W : World, W.routes = (routeCleanedWorld B r).routes →
      routeOrphansOf W r = [] := by
  intro W hW
  unfold routeOrphansOf
  rw [hW]
  rw [List.filter_eq_nil_iff]
  intro y hy
  obtain ⟨hyB, hyp⟩ := List.mem_filter.mp hy
  intro hcontra
  have hyo : y ∈ routeOrphansOf B r := List.mem_filter.mpr ⟨hyB, hcontra⟩
  have hname : y.name ∈ (routeOrphansOf B r).map KRoute.name :=
    List.mem_map.mpr ⟨y, hyo, rfl⟩
  rw [← contains_true_iff] at hname
  rw [hname] at hyp
  cases hyp

/-- The world a cycle leaves behind is a fixpoint of the next cycle's
apply phase, and it contains no orphans for the same input list. -/
theorem second_cycle (cfg : HTTPRouteConfig) (states : List ServiceState) (w : World) :
    postApplyWorld Api.ok cfg states (runSync Api.ok cfg states w).world =
      (runSync Api.ok cfg states w).world ∧
    orphansOf (runSync Api.ok cfg states w).world (desiredOf states) = [] ∧
    (cfg.enabled = true →
      routeOrphansOf (runSync Api.ok cfg states w).world
        (desiredRoutesOf Api.ok cfg states) = []) := by
  have hok := api_ok_cleanOk
  rw [runSync_eq Api.ok cfg states w hok]
  have hkeepS : ∀ y ∈ replay KService.name w.services (serviceWritesOf Api.ok cfg states),
      ∀ x ∈ serviceWritesOf Api.ok cfg states, y.name = x.name →
        (fun s : KService =>
          !(((orphansOf (postApplyWorld Api.ok cfg states w) (desiredOf states)).map
              KService.name).contains s.name)) y = true := by
    intro y _ x hx heq
    obtain ⟨_, hxd⟩ := serviceWritesOf_shape Api.ok cfg states x hx
    simp only
    cases hcon : ((orphansOf (postApplyWorld Api.ok cfg states w) (desiredOf states)).map
        KService.name).contains y.name with
    | false => rfl
    | true =>
      exfalso
      rcases List.mem_map.mp ((contains_true_iff _ _).mp hcon) with ⟨o, ho, hon⟩
      obtain ⟨_, _, hnd⟩ := mem_orphansOf ho
      rw [hon, heq] at hnd
      rw [(contains_true_iff _ _).mpr hxd] at hnd
      cases hnd
  have hkeepSl : ∀ y ∈ replay KEndpointSlice.name w.slices (sliceWritesOf Api.ok cfg states),
      ∀ x ∈ sliceWritesOf Api.ok cfg states, y.name = x.name →
        (fun s : KEndpointSlice =>
          !(((orphansOf (postApplyWorld Api.ok cfg states w) (desiredOf states)).map
              (fun o => o.name ++ "-consul")).contains s.name)) y = true := by
    intro y _ x hx heq
    obtain ⟨_, n, hnd, hxn⟩ := sliceWritesOf_shape Api.ok cfg states x hx
    simp only
    cases hcon : ((orphansOf (postApplyWorld Api.ok cfg states w) (desiredOf states)).map
        (fun o => o.name ++ "-consul")).contains y.name with
    | false => rfl
    | true =>
      exfalso
      rcases List.mem_map.mp ((contains_true_iff _ _).mp hcon) with ⟨o, ho, hon⟩
      obtain ⟨_, _, hnod⟩ := mem_orphansOf ho
      rw [heq, hxn] at hon
      have : o.name = n := string_append_right_cancel hon
      rw [this, (contains_true_iff _ _).mpr hnd] at hnod
      cases hnod
  have hmk : ∀ (a1 a2 : List KService) (b1 b2 : List KEndpointSlice)
      (c1 c2 : List KRoute), a1 = a2 → b1 = b2 → c1 = c2 →
      World.mk a1 b1 c1 = World.mk a2 b2 c2 := by
    intro a1 a2 b1 b2 c1 c2 h1 h2 h3
    rw [h1, h2, h3]
  have h1 := replay_filtered_fix KService.name w.services
    (serviceWritesOf Api.ok cfg states) _ hkeepS
  have h2 := replay_filtered_fix KEndpointSlice.name w.slices
    (sliceWritesOf Api.ok cfg states) _ hkeepSl
  by_cases hen : cfg.enabled = true
  · simp only [hen, if_true, ite_true]
    have hkeepR : ∀ y ∈ replay KRoute.name w.routes (routeWritesOf Api.ok cfg states),
        ∀ x ∈ routeWritesOf Api.ok cfg states, y.name = x.name →
          (fun rt : KRoute =>
            !(((routeOrphansOf
                (svcCleanedWorld (postApplyWorld Api.ok cfg states w) (desiredOf states))
                (desiredRoutesOf Api.ok cfg states)).map KRoute.name).contains rt.name)) y
            = true := by
      intro y _ x hx heq
      obtain ⟨_, hxr⟩ := routeWritesOf_shape Api.ok cfg states x hx
      simp only
      cases hcon : ((routeOrphansOf
          (svcCleanedWorld (postApplyWorld Api.ok cfg states w) (desiredOf states))
          (desiredRoutesOf Api.ok cfg states)).map KRoute.name).contains y.name with
      | false => rfl
      | true =>
        exfalso
        rcases List.mem_map.mp ((contains_true_iff _ _).mp hcon) with ⟨o, ho, hon⟩
        obtain ⟨_, _, hnod⟩ := mem_routeOrphansOf ho
        rw [hon, heq] at hnod
        rw [(contains_true_iff _ _).mpr hxr] at hnod
        cases hnod
    have h3 := replay_filtered_fix KRoute.name w.routes
      (routeWritesOf Api.ok cfg states) _ hkeepR
    refine ⟨?_, ?_, fun _ => ?_⟩
    · show World.mk _ _ _ = _
      exact hmk _ _ _ _ _ _ h1 h2 h3
    · exact no_orphans_after_clean (postApplyWorld Api.ok cfg states w)
        (desiredOf states) _ rfl
    · exact no_route_orphans_after_clean
        (svcCleanedWorld (postApplyWorld Api.ok cfg states w) (desiredOf states))
        (desiredRoutesOf Api.ok cfg states) _ rfl
  · simp only [Bool.not_eq_true] at hen
    simp only [hen, Bool.false_eq_true, if_false, ite_false]
    refine ⟨?_, ?_, fun hcon => hcon.elim⟩
    · show World.mk _ _ _ = _
      refine hmk _ _ _ _ _ _ h1 h2 ?_
      rw [routeWritesOf_disabled Api.ok hen states]
      rfl
    · exact no_orphans_after_clean (postApplyWorld Api.ok cfg states w)
        (desiredOf states) _ rfl

/-- C2.  Re-running `Sync` with an identical ServiceState list is
idempotent: against a failure-free orchestrator API the first invocation
returns no error (so its joined error is nil), and the second invocation
leaves the orchestrator state exactly as the first left it while issuing
zero delete calls.  `Sync` recomputes the desired state from scratch each
cycle, so the applies of the second run overwrite objects with their
current contents and cleanup finds no orphans. -/
theorem sync_idempotent (cfg : HTTPRouteConfig) (states : List ServiceState)
    (w : World) :
    (runSync Api.ok cfg states w).errs = [] ∧
    (runSync Api.ok cfg states (runSync Api.ok cfg states w).world).deletes = [] ∧
    (runSync Api.ok cfg states (runSync Api.ok cfg states w).world).world =
      (runSync Api.ok cfg states w).world := by
  obtain ⟨hfix, horph, hrorph⟩ := second_cycle cfg states w
  have hok := api_ok_cleanOk
  refine ⟨?_, ?_, ?_⟩
  · rw [runSync_eq Api.ok cfg states w hok]
    exact errsOf_ok cfg states
  · rw [runSync_eq Api.ok cfg states ((runSync Api.ok cfg states w).world) hok]
    dsimp only
    rw [hfix, horph, svcCleanedWorld_id horph]
    by_cases hen : cfg.enabled = true
    · simp only [hen, if_true, ite_true]
      rw [hrorph hen]
      simp [delPairs]
    · simp only [Bool.not_eq_true] at hen
      simp only [hen, Bool.false_eq_true, if_false, ite_false]
      simp [delPairs]
  · rw [runSync_eq Api.ok cfg states ((runSync Api.ok cfg states w).world) hok]
    dsimp only
    rw [hfix, svcCleanedWorld_id horph]
    by_cases hen : cfg.enabled = true
    · simp only [hen, if_true, ite_true]
      rw [routeCleanedWorld_id (hrorph hen)]
    · simp only [Bool.not_eq_true] at hen
      simp only [hen, Bool.false_eq_true, if_false, ite_false]

theorem svcDelta_routeNames_shape (api : Api) (cfg : HTTPRouteConfig)
    (svc : ServiceState) :
    ∀ nm ∈ (svcDelta api cfg svc).routeNames,
      (hasTag svc.tags cfg.internalTag = true ∧
        nm = sanitizeName svc.name ++ "-" ++ cfg.internalGateway) ∨
      (hasTag svc.tags cfg.externalTag = true ∧
        nm = sanitizeName svc.name ++ "-" ++ cfg.externalGateway) := by
  obtain ⟨name, insts, tags⟩ := svc
  cases insts with
  | nil => intro nm hnm; cases hnm
  | cons inst rest =>
    intro nm hnm
    by_cases hport : (toInt32 inst.port < 1 || toInt32 inst.port > 65535) = true
    · simp [svcDelta, hport] at hnm
    · by_cases hsf : api.applyServiceFails (sanitizeName name) = true
      · simp [svcDelta, hport, hsf] at hnm
      · by_cases hslf : api.applySliceFails (sanitizeName name) = true
        · simp [svcDelta, hport, hsf, hslf] at hnm
        · by_cases hen : cfg.enabled = true
          · by_cases hrfI : api.applyRouteFails
                (sanitizeName name ++ "-" ++ cfg.internalGateway) = true
            · by_cases hrfE : api.applyRouteFails
                  (sanitizeName name ++ "-" ++ cfg.externalGateway) = true
              · by_cases htI : hasTag tags cfg.internalTag = true <;>
                  by_cases htE : hasTag tags cfg.externalTag = true <;>
                  · simp [svcDelta, hport, hsf, hslf, hen, hrfI, hrfE, htI, htE] at hnm ⊢ <;>
                      tauto
              · simp only [Bool.not_eq_true] at hrfE
                by_cases htI : hasTag tags cfg.internalTag = true <;>
                  by_cases htE : hasTag tags cfg.externalTag = true <;>
                  · simp [svcDelta, hport, hsf, hslf, hen, hrfI, hrfE, htI, htE] at hnm ⊢ <;>
                      tauto
            · simp only [Bool.not_eq_true] at hrfI
              by_cases hrfE : api.applyRouteFails
                  (sanitizeName name ++ "-" ++ cfg.externalGateway) = true
              · by_cases htI : hasTag tags cfg.internalTag = true <;>
                  by_cases htE : hasTag tags cfg.externalTag = true <;>
                  · simp [svcDelta, hport, hsf, hslf, hen, hrfI, hrfE, htI, htE] at hnm ⊢ <;>
                      tauto
              · simp only [Bool.not_eq_true] at hrfE
                by_cases htI : hasTag tags cfg.internalTag = true <;>
                  by_cases htE : hasTag tags cfg.externalTag = true <;>
                  · simp [svcDelta, hport, hsf, hslf, hen, hrfI, hrfE, htI, htE] at hnm ⊢ <;>
                      tauto
          · simp only [Bool.not_eq_true] at hen
            simp [svcDelta, hport, hsf, hslf, hen] at hnm

theorem routeNamesOf_shape (api : Api) (cfg : HTTPRouteConfig)
    (states : List ServiceState) :
    ∀ nm ∈ routeNamesOf api cfg states, ∃ s ∈ states,
      (hasTag s.tags cfg.internalTag = true ∧
        nm = sanitizeName s.name ++ "-" ++ cfg.internalGateway) ∨
      (hasTag s.tags cfg.externalTag = true ∧
        nm = sanitizeName s.name ++ "-" ++ cfg.externalGateway) := by
  intro nm hnm
  rcases (mem_aggr _ states nm).mp hnm with ⟨s, hs, hnms⟩
  exact ⟨s, hs, svcDelta_routeNames_shape api cfg s nm hnms⟩

theorem mem_delPairs {orphans : List KService} {o : KService} (ho : o ∈ orphans) :
    DeleteCall.slice (o.name ++ "-consul") ∈ delPairs orphans ∧
    DeleteCall.service o.name ∈ delPairs orphans := by
  constructor <;>
    refine List.mem_flatten.mpr
      ⟨[DeleteCall.slice (o.name ++ "-consul"), DeleteCall.service o.name],
       List.mem_map.mpr ⟨o, ho, rfl⟩, by simp⟩

/-- C3.  A previously-synced service entirely absent from the current
snapshot is torn down: `Sync` issues delete calls for its Service object
and its `<name>-consul` EndpointSlice, removes both from the final state,
and (when route generation is enabled) deletes every managed route named
`<name>-<gateway>` for either configured gateway.  The hypotheses say the
orphan name `n` differs from every current sanitized name and that no
current service synthesizes a route identifier colliding with `n`'s
(the spec's acknowledged name-collision caveat). -/
theorem orphan_cleanup (cfg : HTTPRouteConfig) (states : List ServiceState)
    (w : World) (n : String)
    (hm : ∃ s ∈ w.services, s.name = n ∧ s.managed = true)
    (habs : ∀ s ∈ states, sanitizeName s.name ≠ n)
    (hcol : ∀ s ∈ states, ∀ g1 ∈ [cfg.internalGateway, cfg.externalGateway],
      ∀ g2 ∈ [cfg.internalGateway, cfg.externalGateway],
        sanitizeName s.name ++ "-" ++ g1 ≠ n ++ "-" ++ g2) :
    DeleteCall.service n ∈ (runSync Api.ok cfg states w).deletes ∧
    DeleteCall.slice (n ++ "-consul") ∈ (runSync Api.ok cfg states w).deletes ∧
    (∀ y ∈ (runSync Api.ok cfg states w).world.services, y.name ≠ n) ∧
    (∀ y ∈ (runSync Api.ok cfg states w).world.slices, y.name ≠ n ++ "-consul") ∧
    (∀ rt ∈ w.routes, rt.managed = true →
      ∀ g ∈ [cfg.internalGateway, cfg.externalGateway], rt.name = n ++ "-" ++ g →
        cfg.enabled = true →
          DeleteCall.route rt.name ∈ (runSync Api.ok cfg states w).deletes ∧
          ∀ y ∈ (runSync Api.ok cfg states w).world.routes, y.name ≠ rt.name) := by
  obtain ⟨s0, hs0w, hs0n, hs0m⟩ := hm
  have hok := api_ok_cleanOk
  rw [runSync_eq Api.ok cfg states w hok]
  dsimp only
  -- no write touches the key n
  have hwkeys : ∀ x ∈ serviceWritesOf Api.ok cfg states, KService.name x ≠ n := by
    intro x hx
    rcases (mem_aggr _ states x).mp hx with ⟨s, hs, hxs⟩
    obtain ⟨hxn, _⟩ := svcDelta_serviceWrites_shape Api.ok cfg s x hxs
    rw [hxn]
    exact habs s hs
  -- the orphan entry survives the apply phase
  have hs0A : s0 ∈ (postApplyWorld Api.ok cfg states w).services := by
    have hf := filter_key_replay KService.name
      (serviceWritesOf Api.ok cfg states) hwkeys w.services
    have hmem : s0 ∈ w.services.filter (fun y => KService.name y == n) :=
      List.mem_filter.mpr ⟨hs0w, by simp [hs0n]⟩
    rw [← hf] at hmem
    exact (List.mem_filter.mp hmem).1
  -- n is not desired
  have hnd : (desiredOf states).contains n = false := by
    cases hcon : (desiredOf states).contains n with
    | false => rfl
    | true =>
      exfalso
      rcases (mem_desiredOf states n).mp ((contains_true_iff _ _).mp hcon)
        with ⟨s, hs, hsn⟩
      exact habs s hs hsn
  have hs0orph : s0 ∈ orphansOf (postApplyWorld Api.ok cfg states w) (desiredOf states) := by
    refine List.mem_filter.mpr ⟨hs0A, ?_⟩
    rw [hs0m, hs0n, hnd]
    rfl
  obtain ⟨hdel1, hdel2⟩ := mem_delPairs hs0orph
  refine ⟨?_, ?_, ?_, ?_, ?_⟩
  · rw [← hs0n]
    exact List.mem_append.mpr (Or.inl hdel2)
  · rw [← hs0n]
    exact List.mem_append.mpr (Or.inl hdel1)
  · intro y hy hyn
    have hyB : y ∈ (svcCleanedWorld (postApplyWorld Api.ok cfg states w)
        (desiredOf states)).services := by
      by_cases hen : cfg.enabled = true
      · simpa [hen, routeCleanedWorld] using hy
      · simp only [Bool.not_eq_true] at hen
        simpa [hen, Bool.false_eq_true, if_false, ite_false] using hy
    obtain ⟨_, hyp⟩ := List.mem_filter.mp hyB
    have : y.name ∈ (orphansOf (postApplyWorld Api.ok cfg states w)
        (desiredOf states)).map KService.name := by
      rw [hyn, ← hs0n]
      exact List.mem_map.mpr ⟨s0, hs0orph, rfl⟩
    rw [← contains_true_iff] at this
    rw [this] at hyp
    cases hyp
  · intro y hy hyn
    have hyB : y ∈ (svcCleanedWorld (postApplyWorld Api.ok cfg states w)
        (desiredOf states)).slices := by
      by_cases hen : cfg.enabled = true
      · simpa [hen, routeCleanedWorld] using hy
      · simp only [Bool.not_eq_true] at hen
        simpa [hen, Bool.false_eq_true, if_false, ite_false] using hy
    obtain ⟨_, hyp⟩ := List.mem_filter.mp hyB
    have : y.name ∈ (orphansOf (postApplyWorld Api.ok cfg states w)
        (desiredOf states)).map (fun o => o.name ++ "-consul") := by
      rw [hyn, ← hs0n]
      exact List.mem_map.mpr ⟨s0, hs0orph, rfl⟩
    rw [← contains_true_iff] at this
    rw [this] at hyp
    cases hyp
  · intro rt hrt hrtm g hg hrtn hen
    -- no route write touches the key rt.name
    have hrkeys : ∀ x ∈ routeWritesOf Api.ok cfg states, KRoute.name x ≠ rt.name := by
      intro x hx
      rcases (mem_aggr _ states x).mp hx with ⟨s, hs, hxs⟩
      obtain ⟨_, hxn⟩ := svcDelta_routeWrites_shape Api.ok cfg s x hxs
      rcases svcDelta_routeNames_shape Api.ok cfg s x.name hxn with ⟨_, h⟩ | ⟨_, h⟩
      · show x.name ≠ rt.name
        rw [h, hrtn]
        exact hcol s hs cfg.internalGateway (by simp) g hg
      · show x.name ≠ rt.name
        rw [h, hrtn]
        exact hcol s hs cfg.externalGateway (by simp) g hg
    -- the stale route survives the apply phase
    have hrtA : rt ∈ (postApplyWorld Api.ok cfg states w).routes := by
      have hf := filter_key_replay KRoute.name
        (routeWritesOf Api.ok cfg states) hrkeys w.routes
      have hmem : rt ∈ w.routes.filter (fun y => KRoute.name y == rt.name) :=
        List.mem_filter.mpr ⟨hrt, by simp⟩
      rw [← hf] at hmem
      exact (List.mem_filter.mp hmem).1
    -- its name is not in the desired-route set
    have hrnd : (desiredRoutesOf Api.ok cfg states).contains rt.name = false := by
      cases hcon : (desiredRoutesOf Api.ok cfg states).contains rt.name with
      | false => rfl
      | true =>
        exfalso
        have hmemR := (mem_desiredRoutesOf Api.ok cfg states rt.name).mp
          ((contains_true_iff _ _).mp hcon)
        rcases routeNamesOf_shape Api.ok cfg states rt.name hmemR
          with ⟨s, hs, ⟨_, h⟩ | ⟨_, h⟩⟩
        · exact hcol s hs cfg.internalGateway (by simp) g hg (h.symm.trans hrtn)
        · exact hcol s hs cfg.externalGateway (by simp) g hg (h.symm.trans hrtn)
    have hrtorph : rt ∈ routeOrphansOf
        (svcCleanedWorld (postApplyWorld Api.ok cfg states w) (desiredOf states))
        (desiredRoutesOf Api.ok cfg states) := by
      refine List.mem_filter.mpr ⟨hrtA, ?_⟩
      rw [hrtm, hrnd]
      rfl
    constructor
    · refine List.mem_append.mpr (Or.inr ?_)
      rw [if_pos hen]
      exact List.mem_map.mpr ⟨rt, hrtorph, rfl⟩
    · intro y hy hyn
      rw [if_pos hen] at hy
      obtain ⟨_, hyp⟩ := List.mem_filter.mp hy
      have hmm : y.name ∈ (routeOrphansOf
          (svcCleanedWorld (postApplyWorld Api.ok cfg states w) (desiredOf states))
          (desiredRoutesOf Api.ok cfg states)).map KRoute.name := by
        rw [hyn]
        exact List.mem_map.mpr ⟨rt, hrtorph, rfl⟩
      rw [← contains_true_iff] at hmm
      rw [hmm] at hyp
      cases hyp

/-- A world holding all three derived objects of a service `foo` that is
about to disappear from the registry. -/
def c3World : World :=
  ⟨[⟨"foo", true, 80⟩],
   [⟨"foo-consul", true, "foo", 80, ["10.0.0.1"]⟩],
   [⟨"foo-envoy-internal", true, "foo", "envoy-internal", "foo.k8s.example.io", 80⟩]⟩

/-- Witness for C3 at a concrete input: a snapshot omitting `foo`
entirely makes the next cycle delete foo's Service, its EndpointSlice
and its HTTPRoute. -/
theorem orphan_cleanup_witness :
    DeleteCall.service "foo" ∈ (runSync Api.ok cfgDefault [] c3World).deletes ∧
    DeleteCall.slice "foo-consul" ∈ (runSync Api.ok cfgDefault [] c3World).deletes ∧
    DeleteCall.route "foo-envoy-internal" ∈
      (runSync Api.ok cfgDefault [] c3World).deletes := by
  obtain ⟨h1, h2, _, _, h5⟩ := orphan_cleanup cfgDefault [] c3World "foo"
    ⟨⟨"foo", true, 80⟩, by decide, rfl, rfl⟩
    (fun s hs => absurd hs (List.not_mem_nil s))
    (fun s hs => absurd hs (List.not_mem_nil s))
  refine ⟨h1, h2, ?_⟩
  obtain ⟨h6, _⟩ := h5
    ⟨"foo-envoy-internal", true, "foo", "envoy-internal", "foo.k8s.example.io", 80⟩
    (by decide) rfl "envoy-internal" (by decide) (by decide) rfl
  exact h6

theorem svcDelta_service_call (api : Api) (cfg : HTTPRouteConfig)
    {s : ServiceState} {inst : ServiceInstance} {rest : List ServiceInstance}
    (hi : s.instances = inst :: rest) (hp1 : 1 ≤ toInt32 inst.port)
    (hp2 : toInt32 inst.port ≤ 65535)
    (hsf : api.applyServiceFails (sanitizeName s.name) = false) :
    ApplyCall.service (sanitizeName s.name) (toInt32 inst.port) ∈
      (svcDelta api cfg s).applies := by
  obtain ⟨nm, insts, tags⟩ := s
  simp only at hi
  subst hi
  simp only at hsf ⊢
  have hport : (toInt32 inst.port < 1 || toInt32 inst.port > 65535) = false := by
    simp only [Bool.or_eq_false_iff, decide_eq_false_iff_not]
    omega
  by_cases hslf : api.applySliceFails (sanitizeName nm) = true
  · simp [svcDelta, hport, hsf, hslf]
  · by_cases hen : cfg.enabled = true
    · by_cases hrfI : api.applyRouteFails
          (sanitizeName nm ++ "-" ++ cfg.internalGateway) = true <;>
        by_cases hrfE : api.applyRouteFails
          (sanitizeName nm ++ "-" ++ cfg.externalGateway) = true <;>
        by_cases htI : hasTag tags cfg.internalTag = true <;>
        by_cases htE : hasTag tags cfg.externalTag = true <;>
        simp [svcDelta, hport, hsf, hslf, hen, hrfI, hrfE, htI, htE]
    · simp only [Bool.not_eq_true] at hen
      simp [svcDelta, hport, hsf, hslf, hen]

theorem svcDelta_service_err (api : Api) (cfg : HTTPRouteConfig)
    {s : ServiceState} {inst : ServiceInstance} {rest : List ServiceInstance}
    (hi : s.instances = inst :: rest) (hp1 : 1 ≤ toInt32 inst.port)
    (hp2 : toInt32 inst.port ≤ 65535)
    (hsf : api.applyServiceFails (sanitizeName s.name) = true) :
    SyncError.applyService (sanitizeName s.name) ∈ (svcDelta api cfg s).errs := by
  obtain ⟨nm, insts, tags⟩ := s
  simp only at hi
  subst hi
  simp only at hsf ⊢
  have hport : (toInt32 inst.port < 1 || toInt32 inst.port > 65535) = false := by
    simp only [Bool.or_eq_false_iff, decide_eq_false_iff_not]
    omega
  simp [svcDelta, hport, hsf]

theorem svcDelta_slice_err (api : Api) (cfg : HTTPRouteConfig)
    {s : ServiceState} {inst : ServiceInstance} {rest : List ServiceInstance}
    (hi : s.instances = inst :: rest) (hp1 : 1 ≤ toInt32 inst.port)
    (hp2 : toInt32 inst.port ≤ 65535)
    (hsf : api.applyServiceFails (sanitizeName s.name) = false)
    (hslf : api.applySliceFails (sanitizeName s.name) = true) :
    SyncError.applySlice (sanitizeName s.name) ∈ (svcDelta api cfg s).errs := by
  obtain ⟨nm, insts, tags⟩ := s
  simp only at hi
  subst hi
  simp only at hsf hslf ⊢
  have hport : (toInt32 inst.port < 1 || toInt32 inst.port > 65535) = false := by
    simp only [Bool.or_eq_false_iff, decide_eq_false_iff_not]
    omega
  simp [svcDelta, hport, hsf, hslf]

/-- C4.  Partial-failure isolation of `Sync`, for an API whose list and
delete calls succeed while apply calls may fail: the cycle's joined
error is exactly the concatenation of the per-service failures in order
(so it is nil iff no per-resource apply failure occurred); a failed
Service or EndpointSlice apply of one service contributes its error to
the joined result; every other eligible service whose own Service apply
succeeds is still applied; and orphan cleanup still runs, deleting
managed Services absent from the snapshot. -/
theorem partial_failure_isolation (api : Api) (cfg : HTTPRouteConfig)
    (states : List ServiceState) (w : World) (hc : api.cleanOk) :
    ((runSync api cfg states w).errs = errsOf api cfg states ∧
      ((runSync api cfg states w).errs = [] ↔ errsOf api cfg states = [])) ∧
    (∀ s ∈ states, ∀ inst rest, s.instances = inst :: rest →
      1 ≤ toInt32 inst.port → toInt32 inst.port ≤ 65535 →
      api.applyServiceFails (sanitizeName s.name) = false →
      ApplyCall.service (sanitizeName s.name) (toInt32 inst.port) ∈
        (runSync api cfg states w).applies) ∧
    (∀ s ∈ states, ∀ inst rest, s.instances = inst :: rest →
      1 ≤ toInt32 inst.port → toInt32 inst.port ≤ 65535 →
      api.applyServiceFails (sanitizeName s.name) = true →
      SyncError.applyService (sanitizeName s.name) ∈ (runSync api cfg states w).errs) ∧
    (∀ s ∈ states, ∀ inst rest, s.instances = inst :: rest →
      1 ≤ toInt32 inst.port → toInt32 inst.port ≤ 65535 →
      api.applyServiceFails (sanitizeName s.name) = false →
      api.applySliceFails (sanitizeName s.name) = true →
      SyncError.applySlice (sanitizeName s.name) ∈ (runSync api cfg states w).errs) ∧
    (∀ y ∈ w.services, y.managed = true →
      (∀ s ∈ states, sanitizeName s.name ≠ y.name) →
      DeleteCall.service y.name ∈ (runSync api cfg states w).deletes) := by
  rw [runSync_eq api cfg states w hc]
  dsimp only
  refine ⟨⟨rfl, Iff.rfl⟩, ?_, ?_, ?_, ?_⟩
  · intro s hs inst rest hi hp1 hp2 hsf
    exact (mem_aggr _ states _).mpr
      ⟨s, hs, svcDelta_service_call api cfg hi hp1 hp2 hsf⟩
  · intro s hs inst rest hi hp1 hp2 hsf
    exact (mem_aggr _ states _).mpr
      ⟨s, hs, svcDelta_service_err api cfg hi hp1 hp2 hsf⟩
  · intro s hs inst rest hi hp1 hp2 hsf hslf
    exact (mem_aggr _ states _).mpr
      ⟨s, hs, svcDelta_slice_err api cfg hi hp1 hp2 hsf hslf⟩
  · intro y hy hym habs
    have hwkeys : ∀ x ∈ serviceWritesOf api cfg states, KService.name x ≠ y.name := by
      intro x hx
      rcases (mem_aggr _ states x).mp hx with ⟨s, hs, hxs⟩
      obtain ⟨hxn, _⟩ := svcDelta_serviceWrites_shape api cfg s x hxs
      rw [hxn]
      exact habs s hs
    have hyA : y ∈ (postApplyWorld api cfg states w).services := by
      have hf := filter_key_replay KService.name
        (serviceWritesOf api cfg states) hwkeys w.services
      have hmem : y ∈ w.services.filter (fun z => KService.name z == y.name) :=
        List.mem_filter.mpr ⟨hy, by simp⟩
      rw [← hf] at hmem
      exact (List.mem_filter.mp hmem).1
    have hnd : (desiredOf states).contains y.name = false := by
      cases hcon : (desiredOf states).contains y.name with
      | false => rfl
      | true =>
        exfalso
        rcases (mem_desiredOf states y.name).mp ((contains_true_iff _ _).mp hcon)
          with ⟨s, hs, hsn⟩
        exact habs s hs hsn
    have hyorph : y ∈ orphansOf (postApplyWorld api cfg states w) (desiredOf states) := by
      refine List.mem_filter.mpr ⟨hyA, ?_⟩
      rw [hym, hnd]
      rfl
    exact List.mem_append.mpr (Or.inl (mem_delPairs hyorph).2)

/-- The API of the C4 witness scenario: applying the Service for `plex`
fails, everything else succeeds. -/
def c4Api : Api := { Api.ok with applyServiceFails := fun n => n == "plex" }

/-- The snapshot of the C4 witness scenario. -/
def c4States : List ServiceState :=
  [⟨"plex", [⟨"plex", "10.0.0.5", 32400, []⟩], []⟩,
   ⟨"web", [⟨"web", "10.0.0.6", 8080, []⟩], []⟩]

/-- The starting world of the C4 witness scenario: one stale managed
Service. -/
def c4World : World := ⟨[⟨"old", true, 80⟩], [], []⟩

/-- Witness for C4 at a concrete input: with the `plex` apply failing,
the cycle still applies `web`, still deletes the orphan `old`, and the
joined error contains exactly the `plex` failure (so it is non-nil). -/
theorem partial_failure_isolation_witness :
    SyncError.applyService "plex" ∈ (runSync c4Api cfgDefault c4States c4World).errs ∧
    ApplyCall.service "web" 8080 ∈ (runSync c4Api cfgDefault c4States c4World).applies ∧
    DeleteCall.service "old" ∈ (runSync c4Api cfgDefault c4States c4World).deletes := by
  have hc : c4Api.cleanOk := ⟨rfl, rfl, fun _ => rfl, fun _ => rfl, fun _ => rfl⟩
  obtain ⟨_, h2, h3, _, h5⟩ :=
    partial_failure_isolation c4Api cfgDefault c4States c4World hc
  have hplex : sanitizeName "plex" = "plex" := by decide
  have hweb : sanitizeName "web" = "web" := by decide
  refine ⟨?_, ?_, ?_⟩
  · have := h3 ⟨"plex", [⟨"plex", "10.0.0.5", 32400, []⟩], []⟩
      (by simp [c4States]) ⟨"plex", "10.0.0.5", 32400, []⟩ [] rfl
      (by decide) (by decide) (by rw [show sanitizeName (⟨"plex", [⟨"plex", "10.0.0.5", 32400, []⟩], []⟩ : ServiceState).name = "plex" from hplex]; decide)
    rw [show sanitizeName (⟨"plex", [⟨"plex", "10.0.0.5", 32400, []⟩], []⟩ : ServiceState).name = "plex" from hplex] at this
    exact this
  · have := h2 ⟨"web", [⟨"web", "10.0.0.6", 8080, []⟩], []⟩
      (by simp [c4States]) ⟨"web", "10.0.0.6", 8080, []⟩ [] rfl
      (by decide) (by decide) (by rw [show sanitizeName (⟨"web", [⟨"web", "10.0.0.6", 8080, []⟩], []⟩ : ServiceState).name = "web" from hweb]; decide)
    rw [show sanitizeName (⟨"web", [⟨"web", "10.0.0.6", 8080, []⟩], []⟩ : ServiceState).name = "web" from hweb] at this
    exact this
  · exact h5 ⟨"old", true, 80⟩ (by simp [c4World]) rfl (by decide)

/-- The route apply calls of a cycle that target the discovery object
named `n` (HTTPRoutes carry their backend service in both the
`app.kubernetes.io/name` label and the backendRef). -/
def routeCallsFor (n : String) (calls : List ApplyCall) : List ApplyCall :=
  calls.filter (fun c =>
    match c with
    | ApplyCall.route _ sn _ _ _ => sn == n
    | _ => false)

/-- The HTTPRoute apply call `Sync` makes for service `n` with port `p`
through gateway `g`. -/
def routeCallOf (cfg : HTTPRouteConfig) (n : String) (p : Int) (g : String) :
    ApplyCall :=
  ApplyCall.route (n ++ "-" ++ g) n g (n ++ "." ++ cfg.domainSuffix) p

theorem svcDelta_applies_route_sn (api : Api) (cfg : HTTPRouteConfig)
    (t : ServiceState) :
    ∀ c ∈ (svcDelta api cfg t).applies, ∀ rn sn g hh p,
      c = ApplyCall.route rn sn g hh p → sn = sanitizeName t.name := by
  obtain ⟨nm, insts, tags⟩ := t
  cases insts with
  | nil => intro c hc; cases hc
  | cons inst rest =>
    intro c hc rn sn g hh p hce
    subst hce
    show sn = sanitizeName nm
    by_cases hport : (toInt32 inst.port < 1 || toInt32 inst.port > 65535) = true
    · simp [svcDelta, hport] at hc
    · by_cases hsf : api.applyServiceFails (sanitizeName nm) = true
      · simp [svcDelta, hport, hsf] at hc
      · by_cases hslf : api.applySliceFails (sanitizeName nm) = true
        · simp [svcDelta, hport, hsf, hslf] at hc
        · by_cases hen : cfg.enabled = true
          · by_cases hrfI : api.applyRouteFails
                (sanitizeName nm ++ "-" ++ cfg.internalGateway) = true <;>
              by_cases hrfE : api.applyRouteFails
                (sanitizeName nm ++ "-" ++ cfg.externalGateway) = true <;>
              by_cases htI : hasTag tags cfg.internalTag = true <;>
              by_cases htE : hasTag tags cfg.externalTag = true <;>
              simp [svcDelta, hport, hsf, hslf, hen, hrfI, hrfE, htI, htE] at hc <;>
              tauto
          · simp only [Bool.not_eq_true] at hen
            simp [svcDelta, hport, hsf, hslf, hen] at hc

theorem routeCallsFor_append (n : String) (l1 l2 : List ApplyCall) :
    routeCallsFor n (l1 ++ l2) = routeCallsFor n l1 ++ routeCallsFor n l2 := by
  simp [routeCallsFor, List.filter_append]

theorem routeCallsFor_other (api : Api) (cfg : HTTPRouteConfig)
    {t : ServiceState} {n : String} (hne : sanitizeName t.name ≠ n) :
    routeCallsFor n (svcDelta api cfg t).applies = [] := by
  unfold routeCallsFor
  rw [List.filter_eq_nil_iff]
  intro c hc hp
  cases c with
  | service a b => cases hp
  | slice a b d => cases hp
  | route rn sn g hh p =>
    have hsn := svcDelta_applies_route_sn api cfg t _ hc rn sn g hh p rfl
    have : (sn == n) = true := hp
    rw [hsn] at this
    exact hne (beq_iff_eq.mp this)

theorem routeCallsFor_appliesOf_zero (api : Api) (cfg : HTTPRouteConfig)
    {states : List ServiceState} {n : String}
    (h : ∀ t ∈ states, sanitizeName t.name ≠ n) :
    routeCallsFor n (appliesOf api cfg states) = [] := by
  induction states with
  | nil => rfl
  | cons t states ih =>
    show routeCallsFor n (aggr _ (t :: states)) = []
    rw [aggr_cons, routeCallsFor_append,
      routeCallsFor_other api cfg (h t (List.mem_cons_self t states)),
      List.nil_append]
    exact ih (fun t2 ht2 => h t2 (List.mem_cons_of_mem t ht2))

theorem routeCallsFor_appliesOf_single (cfg : HTTPRouteConfig)
    {states : List ServiceState} {s : ServiceState}
    (hs : s ∈ states) (hcount : states.count s = 1)
    (huniq : ∀ t ∈ states, sanitizeName t.name = sanitizeName s.name → t = s) :
    routeCallsFor (sanitizeName s.name) (appliesOf Api.ok cfg states) =
      routeCallsFor (sanitizeName s.name) (svcDelta Api.ok cfg s).applies := by
  induction states with
  | nil => cases hs
  | cons t states ih =>
    show routeCallsFor _ (aggr _ (t :: states)) = _
    rw [aggr_cons, routeCallsFor_append]
    by_cases hts : t = s
    · subst hts
      have hcnt0 : states.count t = 0 := by
        rw [List.count_cons_self] at hcount
        omega
      have hnot : t ∉ states := List.count_eq_zero.mp hcnt0
      have hz := routeCallsFor_appliesOf_zero Api.ok cfg
        (fun t2 ht2 hne2 => hnot (huniq t2 (List.mem_cons_of_mem t ht2) hne2 ▸ ht2))
      rw [show aggr (fun z => (svcDelta Api.ok cfg z).applies) states
          = appliesOf Api.ok cfg states from rfl, hz]
      simp
    · have hne : sanitizeName t.name ≠ sanitizeName s.name :=
        fun he => hts (huniq t (List.mem_cons_self t states) he)
      rw [routeCallsFor_other Api.ok cfg hne, List.nil_append]
      have hs1 : s ∈ states := by
        rcases List.mem_cons.mp hs with h1 | h1
        · exact absurd h1.symm hts
        · exact h1
      have hcount1 : states.count s = 1 := by
        rw [List.count_cons_of_ne (fun he => hts he.symm)] at hcount
        exact hcount
      exact ih hs1 hcount1
        (fun t2 ht2 => huniq t2 (List.mem_cons_of_mem t ht2))

theorem svcDelta_routeCalls (cfg : HTTPRouteConfig) {s : ServiceState}
    {inst : ServiceInstance} {rest : List ServiceInstance}
    (hi : s.instances = inst :: rest) (hp1 : 1 ≤ toInt32 inst.port)
    (hp2 : toInt32 inst.port ≤ 65535) (hen : cfg.enabled = true) :
    routeCallsFor (sanitizeName s.name) (svcDelta Api.ok cfg s).applies =
      (if hasTag s.tags cfg.internalTag = true then
        [routeCallOf cfg (sanitizeName s.name) (toInt32 inst.port) cfg.internalGateway]
       else []) ++
      (if hasTag s.tags cfg.externalTag = true then
        [routeCallOf cfg (sanitizeName s.name) (toInt32 inst.port) cfg.externalGateway]
       else []) := by
  obtain ⟨nm, insts, tags⟩ := s
  simp only at hi
  subst hi
  have hport : (toInt32 inst.port < 1 || toInt32 inst.port > 65535) = false := by
    simp only [Bool.or_eq_false_iff, decide_eq_false_iff_not]
    omega
  by_cases htI : hasTag tags cfg.internalTag = true <;>
    by_cases htE : hasTag tags cfg.externalTag = true <;>
    simp [svcDelta, routeCallsFor, routeCallOf, hport, htI, htE, hen, Api.ok]

/-- C8.  Tag-to-route mapping, with route generation enabled, for a
service that syncs successfully with at least one instance and a valid
port (and whose sanitized name is carried by no other snapshot entry —
the spec's collision caveat): the cycle's route applies for that service
are exactly one internal-gateway route if only the internal tag is
present, one route per tag if both are present, and none if neither is
(read off the two `if`s of the conclusion); and a managed route named
for a gateway whose triggering tag the service no longer carries is
deleted by that cycle's route cleanup and absent from the final state. -/
theorem tag_route_mapping (cfg : HTTPRouteConfig) (states : List ServiceState)
    (w : World) (s : ServiceState) (inst : ServiceInstance)
    (rest : List ServiceInstance)
    (hen : cfg.enabled = true) (hs : s ∈ states)
    (hi : s.instances = inst :: rest)
    (hp1 : 1 ≤ toInt32 inst.port) (hp2 : toInt32 inst.port ≤ 65535)
    (hcount : states.count s = 1)
    (huniq : ∀ t ∈ states, sanitizeName t.name = sanitizeName s.name → t = s) :
    routeCallsFor (sanitizeName s.name) (runSync Api.ok cfg states w).applies =
      (if hasTag s.tags cfg.internalTag = true then
        [routeCallOf cfg (sanitizeName s.name) (toInt32 inst.port) cfg.internalGateway]
       else []) ++
      (if hasTag s.tags cfg.externalTag = true then
        [routeCallOf cfg (sanitizeName s.name) (toInt32 inst.port) cfg.externalGateway]
       else []) ∧
    (∀ rt ∈ w.routes, rt.managed = true →
      ∀ g tg g2,
        ((g = cfg.internalGateway ∧ tg = cfg.internalTag ∧ g2 = cfg.externalGateway) ∨
         (g = cfg.externalGateway ∧ tg = cfg.externalTag ∧ g2 = cfg.internalGateway)) →
        rt.name = sanitizeName s.name ++ "-" ++ g →
        hasTag s.tags tg = false →
        (∀ t ∈ states, sanitizeName t.name ++ "-" ++ g2 ≠ rt.name) →
        DeleteCall.route rt.name ∈ (runSync Api.ok cfg states w).deletes ∧
        ∀ y ∈ (runSync Api.ok cfg states w).world.routes, y.name ≠ rt.name) := by
  have hok := api_ok_cleanOk
  rw [runSync_eq Api.ok cfg states w hok]
  dsimp only
  constructor
  · rw [show appliesOf Api.ok cfg states = appliesOf Api.ok cfg states from rfl,
      routeCallsFor_appliesOf_single cfg hs hcount huniq,
      svcDelta_routeCalls cfg hi hp1 hp2 hen]
  · intro rt hrt hrtm g tg g2 hg hrtn habs hcol2
    have hnotname : ∀ t ∈ states, ∀ nm,
        ((hasTag t.tags cfg.internalTag = true ∧
            nm = sanitizeName t.name ++ "-" ++ cfg.internalGateway) ∨
         (hasTag t.tags cfg.externalTag = true ∧
            nm = sanitizeName t.name ++ "-" ++ cfg.externalGateway)) →
        nm ≠ rt.name := by
      intro t ht nm hshape hneq
      rcases hg with ⟨hgi, htgi, hg2i⟩ | ⟨hge, htge, hg2e⟩
      · rcases hshape with ⟨htag, hnm⟩ | ⟨htag, hnm⟩
        · have heq1 : sanitizeName t.name ++ "-" ++ cfg.internalGateway =
              sanitizeName s.name ++ "-" ++ cfg.internalGateway := by
            rw [← hnm, hneq, hrtn, hgi]
          have hts : sanitizeName t.name = sanitizeName s.name :=
            string_append_right_cancel (string_append_right_cancel heq1)
          have hts2 : t = s := huniq t ht hts
          subst hts2
          rw [← htgi, habs] at htag
          cases htag
        · exact hcol2 t ht (by rw [hg2i, ← hnm]; exact hneq)
      · rcases hshape with ⟨htag, hnm⟩ | ⟨htag, hnm⟩
        · exact hcol2 t ht (by rw [hg2e, ← hnm]; exact hneq)
        · have heq1 : sanitizeName t.name ++ "-" ++ cfg.externalGateway =
              sanitizeName s.name ++ "-" ++ cfg.externalGateway := by
            rw [← hnm, hneq, hrtn, hge]
          have hts : sanitizeName t.name = sanitizeName s.name :=
            string_append_right_cancel (string_append_right_cancel heq1)
          have hts2 : t = s := huniq t ht hts
          subst hts2
          rw [← htge, habs] at htag
          cases htag
    have hrkeys : ∀ x ∈ routeWritesOf Api.ok cfg states, KRoute.name x ≠ rt.name := by
      intro x hx
      rcases (mem_aggr _ states x).mp hx with ⟨t, ht, hxt⟩
      obtain ⟨_, hxn⟩ := svcDelta_routeWrites_shape Api.ok cfg t x hxt
      exact hnotname t ht x.name (svcDelta_routeNames_shape Api.ok cfg t x.name hxn)
    have hrtA : rt ∈ (postApplyWorld Api.ok cfg states w).routes := by
      have hf := filter_key_replay KRoute.name
        (routeWritesOf Api.ok cfg states) hrkeys w.routes
      have hmem : rt ∈ w.routes.filter (fun y => KRoute.name y == rt.name) :=
        List.mem_filter.mpr ⟨hrt, by simp⟩
      rw [← hf] at hmem
      exact (List.mem_filter.mp hmem).1
    have hrnd : (desiredRoutesOf Api.ok cfg states).contains rt.name = false := by
      cases hcon : (desiredRoutesOf Api.ok cfg states).contains rt.name with
      | false => rfl
      | true =>
        exfalso
        have hmemR := (mem_desiredRoutesOf Api.ok cfg states rt.name).mp
          ((contains_true_iff _ _).mp hcon)
        rcases routeNamesOf_shape Api.ok cfg states rt.name hmemR with ⟨t, ht, hshape⟩
        exact hnotname t ht rt.name hshape rfl
    have hrtorph : rt ∈ routeOrphansOf
        (svcCleanedWorld (postApplyWorld Api.ok cfg states w) (desiredOf states))
        (desiredRoutesOf Api.ok cfg states) := by
      refine List.mem_filter.mpr ⟨hrtA, ?_⟩
      rw [hrtm, hrnd]
      rfl
    constructor
    · refine List.mem_append.mpr (Or.inr ?_)
      rw [if_pos hen]
      exact List.mem_map.mpr ⟨rt, hrtorph, rfl⟩
    · intro y hy hyn
      rw [if_pos hen] at hy
      obtain ⟨_, hyp⟩ := List.mem_filter.mp hy
      have hmm : y.name ∈ (routeOrphansOf
          (svcCleanedWorld (postApplyWorld Api.ok cfg states w) (desiredOf states))
          (desiredRoutesOf Api.ok cfg states)).map KRoute.name := by
        rw [hyn]
        exact List.mem_map.mpr ⟨rt, hrtorph, rfl⟩
      rw [← contains_true_iff] at hmm
      rw [hmm] at hyp
      cases hyp

/-- The service of the C8 witness scenario: `plex`, tagged only
`internal`. -/
def plexState : ServiceState := ⟨"plex", [⟨"plex", "10.0.0.5", 32400, []⟩], ["internal"]⟩

/-- The starting world of the C8 witness scenario: a managed external
route from an earlier cycle in which `plex` still carried the
`external` tag. -/
def c8World : World :=
  ⟨[], [], [⟨"plex-envoy-external", true, "plex", "envoy-external",
    "plex.k8s.example.io", 32400⟩]⟩

/-- Witness for C8 at a concrete input: `plex` tagged only `internal`
gets exactly one route apply (bound to the internal gateway), and the
stale external route is deleted by the same cycle's route cleanup. -/
theorem tag_route_mapping_witness :
    routeCallsFor "plex" (runSync Api.ok cfgDefault [plexState] c8World).applies =
      [ApplyCall.route "plex-envoy-internal" "plex" "envoy-internal"
        "plex.k8s.example.io" 32400] ∧
    DeleteCall.route "plex-envoy-external" ∈
      (runSync Api.ok cfgDefault [plexState] c8World).deletes := by
  have hplex : sanitizeName plexState.name = "plex" := by decide
  obtain ⟨h1, h2⟩ := tag_route_mapping cfgDefault [plexState] c8World plexState
    ⟨"plex", "10.0.0.5", 32400, []⟩ [] rfl (List.mem_cons_self _ _) rfl
    (by decide) (by decide) (by decide)
    (fun t ht _ => List.mem_singleton.mp ht)
  constructor
  · rw [hplex] at h1
    rw [h1]
    decide
  · obtain ⟨h3, _⟩ := h2
      ⟨"plex-envoy-external", true, "plex", "envoy-external",
        "plex.k8s.example.io", 32400⟩
      (by decide) rfl "envoy-external" "external" "envoy-internal"
      (Or.inr ⟨rfl, rfl, rfl⟩) (by rw [hplex]; decide) (by decide)
      (by intro t ht; rw [List.mem_singleton.mp ht, hplex]; decide)
    exact h3

theorem delPairs_mem {orph : List KService} {d : DeleteCall} (h : d ∈ delPairs orph) :
    ∃ o ∈ orph, d = DeleteCall.slice (o.name ++ "-consul") ∨
      d = DeleteCall.service o.name := by
  unfold delPairs at h
  rcases List.mem_flatten.mp h with ⟨l, hl, hdl⟩
  rcases List.mem_map.mp hl with ⟨o, ho, rfl⟩
  rcases List.mem_cons.mp hdl with h1 | h1
  · exact ⟨o, ho, Or.inl h1⟩
  · exact ⟨o, ho, Or.inr (List.mem_singleton.mp h1)⟩

/-- The name key a `Sync` apply call carries for the service it was
derived from. -/
def callOfB (t : ServiceState) (c : ApplyCall) : Bool :=
  match c with
  | ApplyCall.service n _ => n == sanitizeName t.name
  | ApplyCall.slice n _ _ => n == sanitizeName t.name ++ "-consul"
  | ApplyCall.route _ sn _ _ _ => sn == sanitizeName t.name

theorem svcDelta_applies_all (api : Api) (cfg : HTTPRouteConfig) (t : ServiceState) :
    ((svcDelta api cfg t).applies).all (callOfB t) = true := by
  obtain ⟨nm, insts, tags⟩ := t
  cases insts with
  | nil => rfl
  | cons inst rest =>
    by_cases hport : (toInt32 inst.port < 1 || toInt32 inst.port > 65535) = true
    · simp [svcDelta, hport]
    · by_cases hsf : api.applyServiceFails (sanitizeName nm) = true
      · simp [svcDelta, hport, hsf]
      · by_cases hslf : api.applySliceFails (sanitizeName nm) = true
        · simp [svcDelta, hport, hsf, hslf, callOfB]
        · by_cases hen : cfg.enabled = true
          · by_cases hrfI : api.applyRouteFails
                (sanitizeName nm ++ "-" ++ cfg.internalGateway) = true <;>
              by_cases hrfE : api.applyRouteFails
                (sanitizeName nm ++ "-" ++ cfg.externalGateway) = true <;>
              by_cases htI : hasTag tags cfg.internalTag = true <;>
              by_cases htE : hasTag tags cfg.externalTag = true <;>
              simp [svcDelta, hport, hsf, hslf, hen, hrfI, hrfE, htI, htE, callOfB]
          · simp only [Bool.not_eq_true] at hen
            simp [svcDelta, hport, hsf, hslf, hen, callOfB]

theorem svcDelta_applies_key (api : Api) (cfg : HTTPRouteConfig)
    {t : ServiceState} {c : ApplyCall} (hc : c ∈ (svcDelta api cfg t).applies) :
    callOfB t c = true :=
  List.all_eq_true.mp (svcDelta_applies_all api cfg t) c hc

/-- C1 (amended).  A ServiceState with an empty instance list only skips
object creation: `Sync` still inserts its sanitized name into
`DesiredSet` (the insertion precedes the zero-instance check), so the
cycle makes no apply call for it but also issues no delete call for its
Service or EndpointSlice — previously-created objects survive — and the
synced-service gauge, set to the size of `DesiredSet`, counts it. -/
theorem zeroInstance_kept (cfg : HTTPRouteConfig) (states : List ServiceState)
    (w : World) (s : ServiceState) (hs : s ∈ states) (hempty : s.instances = []) :
    sanitizeName s.name ∈ (runSync Api.ok cfg states w).desired ∧
    (svcDelta Api.ok cfg s).applies = [] ∧
    DeleteCall.service (sanitizeName s.name) ∉ (runSync Api.ok cfg states w).deletes ∧
    DeleteCall.slice (sanitizeName s.name ++ "-consul") ∉
      (runSync Api.ok cfg states w).deletes ∧
    (runSync Api.ok cfg states w).syncedServicesGauge =
      (runSync Api.ok cfg states w).desired.length := by
  rw [runSync_eq Api.ok cfg states w api_ok_cleanOk]
  dsimp only
  have hdes : sanitizeName s.name ∈ desiredOf states :=
    (mem_desiredOf states _).mpr ⟨s, hs, rfl⟩
  refine ⟨hdes, ?_, ?_, ?_, rfl⟩
  · obtain ⟨nm, insts, tags⟩ := s
    simp only at hempty
    subst hempty
    rfl
  · intro hmem
    rcases List.mem_append.mp hmem with h | h
    · rcases delPairs_mem h with ⟨o, ho, h1 | h1⟩
      · simp at h1
      · have hon : o.name = sanitizeName s.name := by
          injection h1 with h2
          exact h2.symm
        obtain ⟨_, _, hnd⟩ := mem_orphansOf ho
        rw [hon, (contains_true_iff _ _).mpr hdes] at hnd
        cases hnd
    · revert h
      split
      · intro h
        rcases List.mem_map.mp h with ⟨o, _, ho2⟩
        simp at ho2
      · intro h
        cases h
  · intro hmem
    rcases List.mem_append.mp hmem with h | h
    · rcases delPairs_mem h with ⟨o, ho, h1 | h1⟩
      · have hon : o.name ++ "-consul" = sanitizeName s.name ++ "-consul" := by
          injection h1 with h2
          exact h2.symm
        have : o.name = sanitizeName s.name := string_append_right_cancel hon
        obtain ⟨_, _, hnd⟩ := mem_orphansOf ho
        rw [this, (contains_true_iff _ _).mpr hdes] at hnd
        cases hnd
      · simp at h1
    · revert h
      split
      · intro h
        rcases List.mem_map.mp h with ⟨o, _, ho2⟩
        simp at ho2
      · intro h
        cases h

/-- Witness for C1-amended at the concrete zero-instance scenario. -/
theorem zeroInstance_kept_witness :
    "bar" ∈ (runSync Api.ok cfgDefault [barState] barWorld).desired ∧
    DeleteCall.service "bar" ∉ (runSync Api.ok cfgDefault [barState] barWorld).deletes := by
  obtain ⟨h1, _, h3, _, _⟩ :=
    zeroInstance_kept cfgDefault [barState] barWorld barState
      (List.mem_cons_self _ _) rfl
  have hbar : sanitizeName barState.name = "bar" := by decide
  rw [hbar] at h1 h3
  exact ⟨h1, h3⟩

/-- C5 (amended).  The port range validation applies to the first
instance's port AFTER Go's `int32` conversion: when that converted value
lies outside 1–65535, `Sync` skips the service with a warning only (its
loop iteration makes no apply call and contributes no error), no
Service, EndpointSlice or HTTPRoute is applied for it that cycle, and
the cycle is not aborted — the joined error stays nil, every other
valid service is still applied, and orphan cleanup still runs.  The
name-uniqueness hypothesis is the spec's collision caveat. -/
theorem invalid_port_skip (cfg : HTTPRouteConfig) (states : List ServiceState)
    (w : World) (s : ServiceState) (inst : ServiceInstance)
    (rest : List ServiceInstance)
    (hs : s ∈ states) (hi : s.instances = inst :: rest)
    (hbad : toInt32 inst.port < 1 ∨ toInt32 inst.port > 65535)
    (huniq : ∀ t ∈ states, sanitizeName t.name = sanitizeName s.name → t = s) :
    (svcDelta Api.ok cfg s).applies = [] ∧
    (svcDelta Api.ok cfg s).errs = [] ∧
    (∀ p, ApplyCall.service (sanitizeName s.name) p ∉
      (runSync Api.ok cfg states w).applies) ∧
    (∀ p a, ApplyCall.slice (sanitizeName s.name ++ "-consul") p a ∉
      (runSync Api.ok cfg states w).applies) ∧
    routeCallsFor (sanitizeName s.name) (runSync Api.ok cfg states w).applies = [] ∧
    (runSync Api.ok cfg states w).errs = [] ∧
    (∀ t ∈ states, ∀ inst2 rest2, t.instances = inst2 :: rest2 →
      1 ≤ toInt32 inst2.port → toInt32 inst2.port ≤ 65535 →
      ApplyCall.service (sanitizeName t.name) (toInt32 inst2.port) ∈
        (runSync Api.ok cfg states w).applies) ∧
    (∀ y ∈ w.services, y.managed = true →
      (∀ t ∈ states, sanitizeName t.name ≠ y.name) →
      DeleteCall.service y.name ∈ (runSync Api.ok cfg states w).deletes) := by
  have hport : (toInt32 inst.port < 1 || toInt32 inst.port > 65535) = true := by
    rcases hbad with h | h <;> simp [h]
  have hdelta : (svcDelta Api.ok cfg s).applies = [] ∧
      (svcDelta Api.ok cfg s).errs = [] := by
    obtain ⟨nm, insts, tags⟩ := s
    simp only at hi
    subst hi
    exact ⟨by simp [svcDelta, hport], by simp [svcDelta, hport]⟩
  rw [runSync_eq Api.ok cfg states w api_ok_cleanOk]
  dsimp only
  refine ⟨hdelta.1, hdelta.2, ?_, ?_, ?_, errsOf_ok cfg states, ?_, ?_⟩
  · intro p hmem
    rcases (mem_aggr _ states _).mp hmem with ⟨t, ht, hct⟩
    have hkey := svcDelta_applies_key Api.ok cfg hct
    have hname : sanitizeName s.name = sanitizeName t.name := beq_iff_eq.mp hkey
    have hts : t = s := huniq t ht hname.symm
    subst hts
    rw [hdelta.1] at hct
    cases hct
  · intro p a hmem
    rcases (mem_aggr _ states _).mp hmem with ⟨t, ht, hct⟩
    have hkey := svcDelta_applies_key Api.ok cfg hct
    have hname : sanitizeName s.name ++ "-consul" = sanitizeName t.name ++ "-consul" :=
      beq_iff_eq.mp hkey
    have hts : t = s := huniq t ht (string_append_right_cancel hname).symm
    subst hts
    rw [hdelta.1] at hct
    cases hct
  · unfold routeCallsFor
    rw [List.filter_eq_nil_iff]
    intro c hc hp
    rcases (mem_aggr _ states _).mp hc with ⟨t, ht, hct⟩
    cases c with
    | service a b => cases hp
    | slice a b d => cases hp
    | route rn sn g hh p =>
      have hkey := svcDelta_applies_key Api.ok cfg hct
      have hname : sn = sanitizeName t.name := beq_iff_eq.mp hkey
      have hsn : (sn == sanitizeName s.name) = true := hp
      have hts : t = s := huniq t ht (hname ▸ beq_iff_eq.mp hsn)
      subst hts
      rw [hdelta.1] at hct
      cases hct
  · intro t ht inst2 rest2 hi2 hp1 hp2
    exact (mem_aggr _ states _).mpr
      ⟨t, ht, svcDelta_service_call Api.ok cfg hi2 hp1 hp2 rfl⟩
  · intro y hy hym habs
    have hwkeys : ∀ x ∈ serviceWritesOf Api.ok cfg states, KService.name x ≠ y.name := by
      intro x hx
      rcases (mem_aggr _ states x).mp hx with ⟨t, ht, hxt⟩
      obtain ⟨hxn, _⟩ := svcDelta_serviceWrites_shape Api.ok cfg t x hxt
      rw [hxn]
      exact habs t ht
    have hyA : y ∈ (postApplyWorld Api.ok cfg states w).services := by
      have hf := filter_key_replay KService.name
        (serviceWritesOf Api.ok cfg states) hwkeys w.services
      have hmem : y ∈ w.services.filter (fun z => KService.name z == y.name) :=
        List.mem_filter.mpr ⟨hy, by simp⟩
      rw [← hf] at hmem
      exact (List.mem_filter.mp hmem).1
    have hnd : (desiredOf states).contains y.name = false := by
      cases hcon : (desiredOf states).contains y.name with
      | false => rfl
      | true =>
        exfalso
        rcases (mem_desiredOf states y.name).mp ((contains_true_iff _ _).mp hcon)
          with ⟨t, ht, htn⟩
        exact habs t ht htn
    have hyorph : y ∈ orphansOf (postApplyWorld Api.ok cfg states w)
        (desiredOf states) := by
      refine List.mem_filter.mpr ⟨hyA, ?_⟩
      rw [hym, hnd]
      rfl
    exact List.mem_append.mpr (Or.inl (mem_delPairs hyorph).2)

/-- Witness for C5-amended at the wrap-around port scenario: the
int32-reduction of 4294967376 is 80, inside the range, so instead take a
first instance whose port is 70000 (int32-reduced it is still 70000,
outside the range): the service is skipped entirely. -/
theorem invalid_port_skip_witness :
    (∀ p, ApplyCall.service "big" p ∉
      (runSync Api.ok cfgDefault [⟨"big", [⟨"big", "10.0.0.9", 70000, []⟩], []⟩]
        emptyWorld).applies) ∧
    (runSync Api.ok cfgDefault [⟨"big", [⟨"big", "10.0.0.9", 70000, []⟩], []⟩]
      emptyWorld).errs = [] := by
  obtain ⟨_, _, h3, _, _, h6, _, _⟩ :=
    invalid_port_skip cfgDefault [⟨"big", [⟨"big", "10.0.0.9", 70000, []⟩], []⟩]
      emptyWorld ⟨"big", [⟨"big", "10.0.0.9", 70000, []⟩], []⟩
      ⟨"big", "10.0.0.9", 70000, []⟩ []
      (List.mem_cons_self _ _) rfl (Or.inr (by decide))
      (fun t ht _ => List.mem_singleton.mp ht)
  have hbig : sanitizeName (⟨"big", [⟨"big", "10.0.0.9", 70000, []⟩], []⟩ :
      ServiceState).name = "big" := by decide
  rw [hbig] at h3
  exact ⟨h3, h6⟩

/-- C6 (amended).  Discovery (Service) and route objects are deletion
candidates only when they carry the managed-by marker: a hand-created
Service or HTTPRoute is never deleted by `sync`.  (The EndpointSlice is
the exception shown by the counterexample: it is deleted by the derived
name `<orphan>-consul` without a label check.)  The Nodup hypotheses say
object names are unique per store, as the orchestrator guarantees. -/
theorem managed_only_deletion (api : Api) (cfg : HTTPRouteConfig)
    (states : List ServiceState) (w : World) (hc : api.cleanOk)
    (hnds : (w.services.map KService.name).Nodup)
    (hndr : (w.routes.map KRoute.name).Nodup) :
    (∀ y ∈ w.services, y.managed = false →
      DeleteCall.service y.name ∉ (runSync api cfg states w).deletes) ∧
    (∀ rt ∈ w.routes, rt.managed = false →
      DeleteCall.route rt.name ∉ (runSync api cfg states w).deletes) := by
  rw [runSync_eq api cfg states w hc]
  dsimp only
  constructor
  · intro y hy hym hmem
    rcases List.mem_append.mp hmem with h | h
    · rcases delPairs_mem h with ⟨o, ho, h1 | h1⟩
      · simp at h1
      · have hon : o.name = y.name := by
          injection h1 with h2
          exact h2.symm
        obtain ⟨hoA, hom, hnd⟩ := mem_orphansOf ho
        rcases mem_replay KService.name hoA with h2 | h2
        · have hoy : o = y :=
            List.inj_on_of_nodup_map hnds h2 hy (by rw [hon])
          rw [hoy, hym] at hom
          cases hom
        · obtain ⟨_, hdmem⟩ := serviceWritesOf_shape api cfg states o h2
          rw [(contains_true_iff _ _).mpr hdmem] at hnd
          cases hnd
    · revert h
      split
      · intro h
        rcases List.mem_map.mp h with ⟨o, _, ho2⟩
        simp at ho2
      · intro h
        cases h
  · intro rt hrt hrtm hmem
    rcases List.mem_append.mp hmem with h | h
    · rcases delPairs_mem h with ⟨o, ho, h1 | h1⟩ <;> simp at h1
    · revert h
      split
      · intro h
        rcases List.mem_map.mp h with ⟨o, ho, ho2⟩
        have hon : o.name = rt.name := by
          injection ho2 with h2
        obtain ⟨hoB, hom, hnd⟩ := mem_routeOrphansOf ho
        rcases mem_replay KRoute.name hoB with h2 | h2
        · have hort : o = rt :=
            List.inj_on_of_nodup_map hndr h2 hrt (by rw [hon])
          rw [hort, hrtm] at hom
          cases hom
        · obtain ⟨_, hrm⟩ := routeWritesOf_shape api cfg states o h2
          rw [(contains_true_iff _ _).mpr hrm] at hnd
          cases hnd
      · intro h
        cases h

/-- A world holding only hand-created (unmanaged) objects. -/
def handWorld : World :=
  ⟨[⟨"hand", false, 9090⟩], [],
   [⟨"hand-route", false, "hand", "gw", "hand.example.io", 9090⟩]⟩

/-- Witness for C6-amended: a cycle over a world of hand-created objects
issues no delete call for them. -/
theorem managed_only_deletion_witness :
    DeleteCall.service "hand" ∉ (runSync Api.ok cfgDefault [] handWorld).deletes ∧
    DeleteCall.route "hand-route" ∉ (runSync Api.ok cfgDefault [] handWorld).deletes := by
  obtain ⟨h1, h2⟩ := managed_only_deletion Api.ok cfgDefault [] handWorld
    api_ok_cleanOk (by decide) (by decide)
  exact ⟨h1 ⟨"hand", false, 9090⟩ (by decide) rfl,
    h2 ⟨"hand-route", false, "hand", "gw", "hand.example.io", 9090⟩ (by decide) rfl⟩

end ConsulSync
